import Mathlib

/-!
Verification model of `automate.py` (Fresh1G1R): an automation script that
downloads DAT files, runs them through the external Retool tool, and keeps
per-configuration output directories tidy.

The Python source is shallowly embedded below.  Strings are modelled as Lean
`String` (a structure over `List Char`); all scanning functions work on the
underlying character lists.  The handful of regular expressions the script
uses are fixed patterns, each translated into an executable matching function
with Python `re` semantics (leftmost match, greedy quantifiers,
non-overlapping global substitution).  Two modelling notes, recorded once
here: `$` is modelled as end-of-string (Python additionally lets `$` match
before a single trailing newline), and `.`-based patterns are modelled for
subject strings without embedded newline characters; the filename stems and
tool messages these patterns are applied to contain no newlines.
-/

/-- Python whitespace class for `str.strip` and `\s` (ASCII part; the
exotic Unicode space code points are not used by any string in scope). -/
def pyIsSpace (c : Char) : Bool :=
  c = ' ' || c = '\t' || c = '\n' || c = '\r' || c = '\x0b' || c = '\x0c'

/-- `str.strip()` on a character list: drop leading and trailing whitespace. -/
def pyStripL (l : List Char) : List Char :=
  ((l.dropWhile pyIsSpace).reverse.dropWhile pyIsSpace).reverse

/-- `str.strip()`. -/
def pyStrip (s : String) : String :=
  ⟨pyStripL s.data⟩

/-- `str.lstrip()` on a character list. -/
def pyLstripL (l : List Char) : List Char :=
  l.dropWhile pyIsSpace

/-- Does `l` start with `p` (character by character)? -/
def startsWithL : List Char → List Char → Bool
  | [], _ => true
  | _ :: _, [] => false
  | p :: ps, c :: cs => p = c && startsWithL ps cs

/-- Case-insensitive (ASCII) version of `startsWithL`. -/
def startsWithCIL : List Char → List Char → Bool
  | [], _ => true
  | _ :: _, [] => false
  | p :: ps, c :: cs => p.toLower = c.toLower && startsWithCIL ps cs

/-- Index of the first occurrence of `pat` in `l` (substring search),
mirroring `str.find` / leftmost `re.search` of a literal. -/
def findSubL (pat : List Char) : List Char → Option Nat
  | [] => if startsWithL pat [] then some 0 else none
  | c :: cs =>
    if startsWithL pat (c :: cs) then some 0
    else (findSubL pat cs).map (· + 1)

/-- Case-insensitive first occurrence of `pat` in `l`. -/
def findSubCIL (pat : List Char) : List Char → Option Nat
  | [] => if startsWithCIL pat [] then some 0 else none
  | c :: cs =>
    if startsWithCIL pat (c :: cs) then some 0
    else (findSubCIL pat cs).map (· + 1)

/-- `pat in s` (Python substring containment) on lists. -/
def hasSubL (pat l : List Char) : Bool :=
  (findSubL pat l).isSome

/-- Python `needle in haystack` substring containment. -/
def hasSub (haystack needle : String) : Bool :=
  hasSubL needle.data haystack.data

/-- A fixed-shape window pattern: a list of character predicates that must
match consecutively at the head of the subject.  This models a regex whose
matches all have the same fixed length (the date patterns below). -/
def windowMatch : List (Char → Bool) → List Char → Bool
  | [], _ => true
  | _ :: _, [] => false
  | p :: ps, c :: cs => p c && windowMatch ps cs

/-- First index at which the window pattern `pat` matches: leftmost
`re.search` for a fixed-length pattern. -/
def findWin (pat : List (Char → Bool)) : List Char → Option Nat
  | [] => if windowMatch pat [] then some 0 else none
  | c :: cs =>
    if windowMatch pat (c :: cs) then some 0
    else (findWin pat cs).map (· + 1)

def isDigitB (c : Char) : Bool := c.isDigit

def isCharB (d : Char) (c : Char) : Bool := c = d

/-- The No-Intro date pattern `\(\d{8}-\d{6}\)`: a 17-character window. -/
def dateWinNI : List (Char → Bool) :=
  [isCharB '('] ++ List.replicate 8 isDigitB ++ [isCharB '-'] ++
    List.replicate 6 isDigitB ++ [isCharB ')']

def isDashColonB (c : Char) : Bool := c = '-' || c = ':'

/-- The Redump date pattern
`\(\d{4}-\d{2}-\d{2} \d{2}[-:]\d{2}[-:]\d{2}\)`: a 21-character window. -/
def dateWinRD : List (Char → Bool) :=
  [isCharB '('] ++ List.replicate 4 isDigitB ++ [isCharB '-'] ++
    List.replicate 2 isDigitB ++ [isCharB '-'] ++ List.replicate 2 isDigitB ++
    [isCharB ' '] ++ List.replicate 2 isDigitB ++ [isDashColonB] ++
    List.replicate 2 isDigitB ++ [isDashColonB] ++ List.replicate 2 isDigitB ++
    [isCharB ')']

/-- The literal ` (Fresh1G1R - ` that opens the configuration marker. -/
def freshMarker : List Char := " (Fresh1G1R - ".data

/-- Does `l` consist exactly of ` (Fresh1G1R - `, then a nonempty run of
non-`)` characters, then `)` — i.e. does the regex
` \(Fresh1G1R - [^)]+\)$` match when anchored here and running to the end? -/
def freshSuffixShape (l : List Char) : Bool :=
  let r := l.drop freshMarker.length
  let x := r.dropLast
  startsWithL freshMarker l && decide (r ≠ []) &&
    decide (r.getLast? = some ')') && decide (x ≠ []) && decide (')' ∉ x)

/-- First index from which a tail-predicate holds (used for `$`-anchored
patterns: the leftmost match that runs to the end of the string). -/
def findFirstTail (p : List Char → Bool) : List Char → Option Nat
  | [] => if p [] then some 0 else none
  | c :: cs =>
    if p (c :: cs) then some 0
    else (findFirstTail p cs).map (· + 1)

/-- `re.sub(r' \(Fresh1G1R - [^)]+\)$', '', s)` on lists: remove a trailing
configuration marker if present. -/
def freshStripL (l : List Char) : List Char :=
  match findFirstTail freshSuffixShape l with
  | some i => l.take i
  | none => l

/-- `re.sub(r' \(Fresh1G1R - [^)]+\)$', '', s)`. -/
def freshStrip (s : String) : String :=
  ⟨freshStripL s.data⟩

/-- The literal ` - Datfile (` that opens the Redump datfile counter. -/
def datfileMarker : List Char := " - Datfile (".data

/-- Consume one-or-more digits then `)`, returning the remainder (the
`\d+\)` part of the datfile pattern, with the regex's forced-greedy run). -/
def digitsThenParen : List Char → Option (List Char)
  | [] => none
  | c :: cs =>
    if c = ')' then some cs
    else if c.isDigit then digitsThenParen cs
    else none

/-- If ` - Datfile \(\d+\)` matches at the head of `l`, the remainder after
the match; note the digit run must be nonempty. -/
def datWindowRest (l : List Char) : Option (List Char) :=
  if startsWithL datfileMarker l then
    match l.drop datfileMarker.length with
    | [] => none
    | c :: cs => if c.isDigit then digitsThenParen cs else none
  else none

/-- Fuel-driven worker for `datfileSubL`; the fuel is an upper bound on the
subject length, so the zero-fuel default branch is never reached when
called through `datfileSubL`.  (Structural recursion on the fuel keeps the
function kernel-reducible.) -/
def datfileSubAux : Nat → List Char → List Char
  | 0, l => l
  | _ + 1, [] => []
  | n + 1, c :: cs =>
    match datWindowRest (c :: cs) with
    | some rest => datfileSubAux n rest
    | none => c :: datfileSubAux n cs

/-- `re.sub(r' - Datfile \(\d+\)', '', s)`: global left-to-right
non-overlapping removal of all datfile counters, scanning the original
string (replacements do not re-combine, matching `re.sub`). -/
def datfileSubL (l : List Char) : List Char :=
  datfileSubAux l.length l

/-- `re.sub(r' - Datfile \(\d+\)', '', s)`. -/
def datfileSub (s : String) : String :=
  ⟨datfileSubL s.data⟩

/-- The literal ` (Retool` that opens Retool's own metadata suffix. -/
def retoolMarker : List Char := " (Retool".data

/-- `re.sub(r' \(Retool.*$', '', s)` for newline-free subjects: cut at the
first occurrence of ` (Retool`. -/
def retoolCutL (l : List Char) : List Char :=
  match findSubL retoolMarker l with
  | some i => l.take i
  | none => l

/-- `re.sub(r' \(Retool.*$', '', s)`. -/
def retoolCut (s : String) : String :=
  ⟨retoolCutL s.data⟩

/-- `extract_system_name` from `automate.py`: strip a trailing
`(Fresh1G1R - config)` marker, then cut at the collection-specific date
pattern (No-Intro `(YYYYMMDD-HHMMSS)`; Redump `(YYYY-MM-DD HH-MM-SS)` or
with colons, after removing a ` - Datfile (N)` infix); without a date the
No-Intro branch returns the marker-stripped stem unchanged and the Redump
branch removes a trailing ` (Retool...` run and strips whitespace. -/
def extract_system_name (filename_stem : String) (collection : String) : String :=
  let l := freshStripL filename_stem.data
  if collection = "no-intro" then
    match findWin dateWinNI l with
    | some i => ⟨pyStripL (l.take i)⟩
    | none => ⟨l⟩
  else
    let normalized := datfileSubL l
    match findWin dateWinRD normalized with
    | some i => ⟨pyStripL (normalized.take i)⟩
    | none => ⟨pyStripL (retoolCutL normalized)⟩

/-! ## Path helpers (pathlib semantics for the names the script handles) -/

/-- Index of the last `.` in a name (`str.rfind`). -/
def lastDotIdx (l : List Char) : Option Nat :=
  match findSubL ['.'] l.reverse with
  | some k => some (l.length - 1 - k)
  | none => none

/-- `Path(name).suffix`: the extension from the last dot, provided that dot
is neither the first nor the last character. -/
def pathSuffixL (l : List Char) : List Char :=
  match lastDotIdx l with
  | some i => if 0 < i ∧ i < l.length - 1 then l.drop i else []
  | none => []

/-- `Path(name).suffix`. -/
def pathSuffix (n : String) : String :=
  ⟨pathSuffixL n.data⟩

/-- `Path(name).stem`: the name with its suffix removed. -/
def stemName (n : String) : String :=
  ⟨n.data.take (n.data.length - (pathSuffixL n.data).length)⟩

/-- `Path(p).name`: drop trailing slashes, then take the part after the
last slash. -/
def pathBasenameL (l : List Char) : List Char :=
  let l1 := (l.reverse.dropWhile (fun c => c = '/')).reverse
  match findSubL ['/'] l1.reverse with
  | some k => l1.drop (l1.length - k)
  | none => l1

/-- Does a filename match the glob `*.dat`?  (`glob` is case-sensitive and
skips names that begin with a dot.) -/
def isDatName (n : String) : Bool :=
  decide (n.data.drop (n.data.length - 4) = ".dat".data) &&
    !(startsWithL ['.'] n.data)

/-! ## `extract_retool_error` -/

/-- Sequential `replace("\r\n", "\n")` then `replace("\r", "\n")`,
fused into one scan (the two left-to-right global replaces are equivalent
to this). -/
def normNlL : List Char → List Char
  | [] => []
  | '\r' :: '\n' :: rest => '\n' :: normNlL rest
  | '\r' :: rest => '\n' :: normNlL rest
  | c :: rest => c :: normNlL rest

/-- `replace("\x00", "")`. -/
def removeNullsL (l : List Char) : List Char :=
  l.filter (fun c => c ≠ '\x00')

def isCSIParam (c : Char) : Bool := 0x30 ≤ c.toNat && c.toNat ≤ 0x3f
def isCSIInter (c : Char) : Bool := 0x20 ≤ c.toNat && c.toNat ≤ 0x2f
def isCSIFinal (c : Char) : Bool := 0x40 ≤ c.toNat && c.toNat ≤ 0x7e
def isAnsiSingle (c : Char) : Bool :=
  (0x40 ≤ c.toNat && c.toNat ≤ 0x5a) || (0x5c ≤ c.toNat && c.toNat ≤ 0x5f)

/-- Match the body of the ANSI escape pattern (escape character, then either
a single byte in `@..Z` or backslash..underscore, or a CSI sequence: `[`,
then parameter bytes `0..?`, then intermediate bytes space..slash, then one
final byte `@..~`); returns the remainder after the escape sequence. -/
def ansiMatch : List Char → Option (List Char)
  | [] => none
  | c :: rest =>
    if c = '[' then
      match (rest.dropWhile isCSIParam).dropWhile isCSIInter with
      | d :: rest' => if isCSIFinal d then some rest' else none
      | [] => none
    else if isAnsiSingle c then some rest
    else none

/-- Fuel-driven global removal of ANSI escape sequences
(`ansi_escape.sub('', text)`); fuel bounds the subject length. -/
def stripAnsiAux : Nat → List Char → List Char
  | 0, l => l
  | _ + 1, [] => []
  | n + 1, c :: rest =>
    if c = '\x1b' then
      match ansiMatch rest with
      | some rest' => stripAnsiAux n rest'
      | none => c :: stripAnsiAux n rest
    else c :: stripAnsiAux n rest

def stripAnsiL (l : List Char) : List Char :=
  stripAnsiAux l.length l

/-- `text.split("\n")` (Python `str.split` with an explicit separator:
empty pieces are kept, and the empty string yields `[""]`). -/
def splitOnNl : List Char → List (List Char)
  | [] => [[]]
  | '\n' :: rest => [] :: splitOnNl rest
  | c :: rest =>
    match splitOnNl rest with
    | [] => [[c]]
    | t :: ts => (c :: t) :: ts

/-- `re.match(r"^[A-Z]:\\", s)`: a Windows shell-prompt-looking line. -/
def drivePromptB : List Char → Bool
  | c1 :: c2 :: c3 :: _ =>
    (0x41 ≤ c1.toNat && c1.toNat ≤ 0x5a) && c2 = ':' && c3 = '\\'
  | _ => false

/-- `strip_bullet_point`: `re.sub(r"^•\s*", "", msg).strip()`. -/
def stripBulletL (l : List Char) : List Char :=
  match l with
  | '•' :: rest => pyStripL (rest.dropWhile pyIsSpace)
  | _ => pyStripL l

/-- The fast-path line loop: collect stripped lines until a blank line or a
shell-prompt line. -/
def collectMsgLines : List (List Char) → List (List Char)
  | [] => []
  | ln :: rest =>
    let s := pyStripL ln
    if s = [] then []
    else if drivePromptB s then []
    else s :: collectMsgLines rest

/-- The `• Error:` line loop: additionally stop when a new `• ` section
that is not `• Error:` begins. -/
def collectErrLines : List (List Char) → List (List Char)
  | [] => []
  | ln :: rest =>
    let s := pyStripL ln
    if s = [] then []
    else if drivePromptB s then []
    else if startsWithL "• ".data s && !(startsWithL "• Error:".data s) then []
    else s :: collectErrLines rest

/-- `" ".join(lines)`. -/
def joinSpace : List (List Char) → List Char
  | [] => []
  | [x] => x
  | x :: xs => x ++ ' ' :: joinSpace xs

/-- `re.sub(r"\s+", " ", s)`: collapse each whitespace run to one space
(processed from the right; equivalent to the left-to-right global sub). -/
def collapseWsL : List Char → List Char
  | [] => []
  | c :: rest =>
    if pyIsSpace c then
      match collapseWsL rest with
      | [] => [' ']
      | d :: ds => if d = ' ' then ' ' :: ds else ' ' :: d :: ds
    else c :: collapseWsL rest

/-- Attempt the tail of `re.search(r'"\s*[^"]+"\.\s*(.+)$', joined)` after an
opening quote: the closing quote is the next quote (the class `[^"]+`
cannot cross it), a literal dot must follow, and the group is the rest
after greedy whitespace with the backtracking step that keeps `.+`
nonempty. -/
def m2Attempt (rest : List Char) : Option (List Char) :=
  match findSubL ['"'] rest with
  | none => none
  | some k =>
    if k = 0 then none
    else
      match rest.drop (k + 1) with
      | '.' :: r =>
        if r = [] then none
        else some (r.drop (min ((r.takeWhile pyIsSpace).length) (r.length - 1)))
      | _ => none

/-- Leftmost match of `re.search(r'"\s*[^"]+"\.\s*(.+)$', joined)`,
returning the captured group. -/
def m2Search : List Char → Option (List Char)
  | [] => none
  | '"' :: rest =>
    match m2Attempt rest with
    | some g => some g
    | none => m2Search rest
  | _ :: rest => m2Search rest

/-- Last stripped nonempty line that is neither a shell prompt nor mentions
`Retool` (the reversed-candidates fallback loop). -/
def firstGoodRev : List (List Char) → Option (List Char)
  | [] => none
  | ln :: rest =>
    if !(drivePromptB ln) && !(hasSubL "Retool".data ln) then some ln
    else firstGoodRev rest

/-- The fallback branch of `extract_retool_error`. -/
def retoolErrFallback (text : List Char) : String :=
  let candidates := ((splitOnNl text).map pyStripL).filter (fun s => s ≠ [])
  match firstGoodRev candidates.reverse with
  | some ln => ⟨stripBulletL ln⟩
  | none => "Retool failed (unable to parse error message)."

/-- `extract_retool_error` from `automate.py`: normalize newlines, drop
nulls, strip, remove ANSI escapes; then try the fast path for the
`No valid titles in input DAT file.` message (joining wrapped lines), then
the `• Error:` section (with the quoted-path regex and the
whitespace-collapsing cleanup), then the fallback of the last plausible
line. -/
def extract_retool_error (output : String) : String :=
  if output = "" then "Retool failed (no output captured)."
  else
    let text := stripAnsiL (pyStripL (removeNullsL (normNlL output.data)))
    match findSubCIL "No valid titles in input DAT file.".data text with
    | some start =>
      ⟨stripBulletL (joinSpace (collectMsgLines (splitOnNl (text.drop start))))⟩
    | none =>
      match findSubL "• Error:".data text with
      | some idx =>
        let after := pyLstripL (text.drop (idx + "• Error:".data.length))
        let joined := joinSpace (collectErrLines (splitOnNl after))
        match m2Search joined with
        | some g => ⟨stripBulletL (pyStripL g)⟩
        | none =>
          if joined ≠ [] then ⟨stripBulletL (pyStripL (collapseWsL joined))⟩
          else retoolErrFallback text
      | none => retoolErrFallback text

/-! ## Metadata store and directory state

A `DirState` models one output directory `daily-1g1r-dat/{config}/{collection}`:
the filenames it holds and the parsed content of its `.metadata.json` sidecar
(an insertion-ordered dict, modelled as an association list whose keys are
unique).  A directory that does not exist is the state with no files and no
metadata, which also makes `load_metadata` return the empty dict, so the
source's separate `output_dat_dir.exists()` early return needs no extra flag. -/

/-- One metadata value: the source writes `input_filename` and
`output_path`; a legacy entry may instead carry `input_path` (an absolute
path).  A `none` field models an absent JSON key.  (`output_path` is always
present in entries this script reads back, since the reading code indexes
it unconditionally.) -/
structure MetaEntry where
  input_filename : Option String
  input_path : Option String
  output_path : String
deriving DecidableEq, Repr

structure DirState where
  files : List String
  metadata : List (String × MetaEntry)
deriving DecidableEq, Repr

/-- Python dict lookup `metadata[s]` / `s in metadata`. -/
def lookupMeta : List (String × MetaEntry) → String → Option MetaEntry
  | [], _ => none
  | (k, v) :: rest, s => if k = s then some v else lookupMeta rest s

/-- Python dict assignment `metadata[s] = e` (replace in place, else append:
insertion order preserved). -/
def setMeta : List (String × MetaEntry) → String → MetaEntry → List (String × MetaEntry)
  | [], k, v => [(k, v)]
  | (k', v') :: rest, k, v =>
    if k' = k then (k, v) :: rest else (k', v') :: setMeta rest k v

/-- Python `del metadata[s]` (on a dict all occurrences and the single
occurrence coincide). -/
def eraseMeta (md : List (String × MetaEntry)) (k : String) : List (String × MetaEntry) :=
  md.filter (fun kv => kv.1 ≠ k)

/-- The effective stored input filename of an entry:
`entry.get("input_filename")`, falling back (when that is missing or the
falsy empty string) to the basename of the legacy `input_path` field. -/
def storedName (e : MetaEntry) : Option String :=
  match e.input_filename with
  | some s =>
    if s = "" then e.input_path.map (fun p => ⟨pathBasenameL p.data⟩) else some s
  | none => e.input_path.map (fun p => ⟨pathBasenameL p.data⟩)

/-- `check_if_already_processed` from `automate.py`: look up the normalized
system name of the input DAT in the metadata; if the recorded output file
still exists and the effective stored input filename is nonempty and equals
the current input's filename, return the recorded output, else `none`. -/
def check_if_already_processed (st : DirState) (inputName : String)
    (collection : String) : Option String :=
  let system_name := extract_system_name (stemName inputName) collection
  match lookupMeta st.metadata system_name with
  | none => none
  | some entry =>
    if entry.output_path ∈ st.files then
      match storedName entry with
      | some n => if n ≠ "" ∧ inputName = n then some entry.output_path else none
      | none => none
    else none

/-! ## `run_retool` -/

/-- One invocation of the external tool, as observed by the script: whether
`retool.py` was found, the exit status, the `*.dat` and `*.txt` files Retool
left in the temporary output directory (each with its mtime), and the
captured output streams.  The tool itself is the black box; everything the
script does with these observations is modelled below. -/
structure RetoolInvocation where
  scriptExists : Bool
  returncode : Int
  producedDats : List (String × Nat)
  producedReports : List (String × Nat)
  stdout : String
  stderr : String
deriving DecidableEq, Repr

/-- `max(files, key=lambda p: p.stat().st_mtime)`: Python's `max` keeps the
first of several maxima. -/
def maxByMtime : List (String × Nat) → Option (String × Nat)
  | [] => none
  | x :: xs => some (xs.foldl (fun best y => if best.2 < y.2 then y else best) x)

structure RetoolRunResult where
  state : DirState
  output_dat : Option String
  report_txt : Option String
  status : String
  error_message : Option String
deriving DecidableEq, Repr

/-- `run_retool` from `automate.py`.  If a `.dat` was produced it is renamed
to `"{system} (Fresh1G1R - {config})"` plus the temp file's suffix (or just
the system name when the config name is empty), moved into the output
directory overwriting any file of that exact name, and the metadata entry
for the system is updated — all before the status is decided.  The status
is then classified from the combined `stdout + "\n" + stderr` text and the
exit code.  (Report files keep Retool's own names and go to the separate
report directory, which no claim tracks; only the chosen report name is
returned.) -/
def run_retool (st : DirState) (inv : RetoolInvocation) (inputName : String)
    (collection : String) (config_name : String) : RetoolRunResult :=
  if !inv.scriptExists then
    ⟨st, none, none, "failed", some "Retool script not found."⟩
  else
    let moved : DirState × Option String :=
      match maxByMtime inv.producedDats with
      | none => (st, none)
      | some temp =>
        let system_name := extract_system_name (stemName inputName) collection
        let new_name :=
          if config_name ≠ "" then
            system_name ++ " (Fresh1G1R - " ++ config_name ++ ")" ++ pathSuffix temp.1
          else
            system_name ++ pathSuffix temp.1
        let files' := new_name :: st.files.filter (fun f => f ≠ new_name)
        let metadata' := setMeta st.metadata system_name ⟨some inputName, none, new_name⟩
        ({ files := files', metadata := metadata' }, some new_name)
    let st1 := moved.1
    let output_dat := moved.2
    let report_txt := (maxByMtime inv.producedReports).map (fun p => p.1)
    let retool_output := inv.stdout ++ "\n" ++ inv.stderr
    let no_titles_match :=
      hasSub retool_output "No titles in the input DAT match your preferences" ||
        hasSub retool_output "No DAT file has been created"
    let no_valid_titles := hasSub retool_output "No valid titles in input DAT file"
    if inv.returncode ≠ 0 then
      if no_valid_titles then
        ⟨st1, none, report_txt, "no_games", some (extract_retool_error retool_output)⟩
      else if no_titles_match then
        ⟨st1, none, report_txt, "not_required", some (extract_retool_error retool_output)⟩
      else
        ⟨st1, output_dat, report_txt, "failed", some (extract_retool_error retool_output)⟩
    else if output_dat.isSome then
      ⟨st1, output_dat, report_txt, "success", none⟩
    else if no_titles_match then
      ⟨st1, none, report_txt, "not_required", some (extract_retool_error retool_output)⟩
    else if no_valid_titles then
      ⟨st1, none, report_txt, "no_games", some (extract_retool_error retool_output)⟩
    else
      ⟨st1, none, report_txt, "failed", some (extract_retool_error retool_output)⟩

/-! ## The per-file processing loop -/

/-- Module-level constant of `automate.py`. -/
def ALWAYS_REPROCESS : Bool := false

inductive Bucket
  | successful
  | not_required
  | no_games
  | failed
  | skipped
deriving DecidableEq, Repr

structure StepResult where
  state : DirState
  bucket : Bucket
  invoked : Bool
  recorded : Option String
deriving DecidableEq, Repr

/-- One iteration of the loop in `process_all_dats_with_retool`: skip via
`check_if_already_processed` (recording the existing output) unless
`ALWAYS_REPROCESS`, otherwise invoke Retool and classify the result into
one of the remaining four buckets (note the `failed` catch-all also takes a
`"success"` status without an output file). -/
def processOneDat (st : DirState) (inputName : String) (collection config_name : String)
    (inv : RetoolInvocation) : StepResult :=
  let run : StepResult :=
    let r := run_retool st inv inputName collection config_name
    if decide (r.status = "success") && r.output_dat.isSome then
      ⟨r.state, .successful, true, r.output_dat⟩
    else if r.status = "not_required" then ⟨r.state, .not_required, true, none⟩
    else if r.status = "no_games" then ⟨r.state, .no_games, true, none⟩
    else ⟨r.state, .failed, true, none⟩
  if !ALWAYS_REPROCESS then
    match check_if_already_processed st inputName collection with
    | some existing => ⟨st, .skipped, false, some existing⟩
    | none => run
  else run

/-- The five result buckets (each holds the input filenames, in processing
order; `successful` and `skipped` also record the associated output). -/
structure Results where
  successful : List (String × String)
  not_required : List String
  no_games : List String
  failed : List String
  skipped : List (String × String)
deriving DecidableEq, Repr

def emptyResults : Results := ⟨[], [], [], [], []⟩

def addResult (r : Results) (inputName : String) (s : StepResult) : Results :=
  match s.bucket with
  | .successful => { r with successful := r.successful ++ [(inputName, s.recorded.getD "")] }
  | .not_required => { r with not_required := r.not_required ++ [inputName] }
  | .no_games => { r with no_games := r.no_games ++ [inputName] }
  | .failed => { r with failed := r.failed ++ [inputName] }
  | .skipped => { r with skipped := r.skipped ++ [(inputName, s.recorded.getD "")] }

def processAllGo (collection config_name : String) (invFor : String → RetoolInvocation) :
    DirState → List String → Results → DirState × Results
  | st, [], acc => (st, acc)
  | st, f :: rest, acc =>
    let s := processOneDat st f collection config_name (invFor f)
    processAllGo collection config_name invFor s.state rest (addResult acc f s)

/-- `process_all_dats_with_retool` from `automate.py`, with the external
tool's behaviour supplied by the oracle `invFor`. -/
def process_all_dats_with_retool (st : DirState) (dat_files : List String)
    (collection config_name : String) (invFor : String → RetoolInvocation) :
    DirState × Results :=
  processAllGo collection config_name invFor st dat_files emptyResults

/-! ## Cleanup of previous output DATs -/

/-- The part of `cleanupTailShape`'s subject after the marker must be a
nonempty `)`-free run followed by `).dat`, running to the end: the
`\(Fresh1G1R - [^)]+\)\.dat$` half of the cleanup regex. -/
def cleanupTailShape (l : List Char) : Bool :=
  let r := l.drop freshMarker.length
  let x := r.take (r.length - 5)
  startsWithL freshMarker l && decide (r.drop (r.length - 5) = ").dat".data) &&
    decide (x ≠ []) && decide (')' ∉ x)

/-- Scanner for `re.match(r'^(.+?) \(Fresh1G1R - [^)]+\)\.dat$', name)`:
the accumulated (reversed) prefix is the non-greedy `(.+?)` group, which
must be nonempty and newline-free; the shortest prefix whose remainder has
the marker shape wins. -/
def cleanupGroupGo (accRev : List Char) : List Char → Option (List Char)
  | [] => none
  | c :: rest' =>
    if cleanupTailShape (c :: rest') then some accRev.reverse
    else if c = '\n' then none
    else cleanupGroupGo (c :: accRev) rest'

def cleanupGroupL : List Char → Option (List Char)
  | [] => none
  | c :: rest => if c = '\n' then none else cleanupGroupGo [c] rest

/-- The system name `cleanup_previous_dats` reads back out of an output
filename of the canonical `"System (Fresh1G1R - config).dat"` form. -/
def cleanupGroup (name : String) : Option String :=
  (cleanupGroupL name.data).map (fun l => ⟨l⟩)

/-- `cleanup_previous_dats` from `automate.py`: delete every `*.dat` not in
`preserve_files`, and for each deleted file whose name matches the canonical
pattern, drop the metadata entry of its system when that entry still points
at the deleted file. -/
def cleanup_previous_dats (st : DirState) (preserve_files : List String) : DirState :=
  let files_to_remove := st.files.filter (fun f => isDatName f && !(preserve_files.contains f))
  let files' := st.files.filter (fun f => !(isDatName f && !(preserve_files.contains f)))
  let metadata' := files_to_remove.foldl
    (fun md f =>
      match cleanupGroup f with
      | some system_name =>
        match lookupMeta md system_name with
        | some e => if e.output_path = f then eraseMeta md system_name else md
        | none => md
      | none => md)
    st.metadata
  { files := files', metadata := metadata' }

/-- The preserve set `main` computes before the cleanup step: the recorded
outputs of every input whose `check_if_already_processed` succeeds against
the pre-cleanup state (a Python `set`, modelled as a deduplicated list). -/
def computePreserve (st : DirState) (inputs : List String) (collection : String) :
    List String :=
  inputs.foldl
    (fun acc inp =>
      match check_if_already_processed st inp collection with
      | some nm => if acc.contains nm then acc else acc ++ [nm]
      | none => acc)
    []

def passStatesGo (collection config_name : String) (invFor : String → RetoolInvocation) :
    DirState → List String → List DirState
  | _, [] => []
  | st, f :: rest =>
    let st' := (processOneDat st f collection config_name (invFor f)).state
    st' :: passStatesGo collection config_name invFor st' rest

/-- Every directory state reached during one (configuration, collection)
pass of `main`: the state after the cleanup-before-reprocess step, then the
state after each per-file iteration. -/
def processPassStates (st : DirState) (inputs : List String)
    (collection config_name : String) (invFor : String → RetoolInvocation) :
    List DirState :=
  let st1 := cleanup_previous_dats st (computePreserve st inputs collection)
  st1 :: passStatesGo collection config_name invFor st1 inputs

/-- The `*.dat` files of a state whose normalized system name is `sys`. -/
def datFilesFor (st : DirState) (collection sys : String) : List String :=
  st.files.filter (fun f => isDatName f && decide (extract_system_name (stemName f) collection = sys))

/-- The metadata entries of a state recorded under system name `sys`. -/
def metaEntriesFor (st : DirState) (sys : String) : List (String × MetaEntry) :=
  st.metadata.filter (fun kv => kv.1 = sys)

/-! ## Redump raw-DAT cleanup -/

/-- `cleanup_old_redump_dat` from `automate.py`, acting on the listing of
the raw download directory: if the newly downloaded file exists, delete
every other `*.dat` whose normalized (Redump) system name matches its own. -/
def cleanup_old_redump_dat (files : List String) (newName : String) : List String :=
  if newName ∈ files then
    files.filter (fun f =>
      !(isDatName f && decide (f ≠ newName) &&
        decide (extract_system_name (stemName f) "redump" =
          extract_system_name (stemName newName) "redump")))
  else files

/-! ## Report retention (`cleanup_old_files`) -/

structure RFile where
  name : String
  mtime : Nat
deriving DecidableEq, Repr

/-- The grouping key `cleanup_old_files` computes for a report filename:
strip the `(Fresh1G1R - ...)` marker from the stem; for No-Intro keep
everything up to and including the date window, for Redump cut a trailing
` (Retool...` run. -/
def reportGroupKey (name : String) (collection : String) : String :=
  let l := freshStripL (stemName name).data
  if collection = "no-intro" then
    match findWin dateWinNI l with
    | some i => ⟨l.take (i + 17)⟩
    | none => ⟨l⟩
  else
    ⟨retoolCutL l⟩

def mtimeGe (a b : RFile) : Bool := decide (b.mtime ≤ a.mtime)

/-- `system_files.sort(key=mtime, reverse=True)`: a stable descending sort
(Python's stable sort with `reverse=True` keeps the original order of
equal keys, as `mergeSort` does with this comparator). -/
def sortByMtimeDesc (g : List RFile) : List RFile :=
  g.mergeSort mtimeGe

/-- The files of one grouping-dict bucket, in original order (the insertion
order of the Python dict's per-key list). -/
def groupOfKey (files : List RFile) (collection key : String) : List RFile :=
  files.filter (fun f => decide (reportGroupKey f.name collection = key))

/-- Files a group retains: all of them when the group is within the quota,
else the first `keep_count` of the descending-mtime sort. -/
def keptOfGroup (g : List RFile) (keep_count : Nat) : List RFile :=
  if g.length ≤ keep_count then g else (sortByMtimeDesc g).take keep_count

/-- Files `cleanup_old_files` deletes out of one group. -/
def deletedOfGroup (g : List RFile) (keep_count : Nat) : List RFile :=
  if g.length ≤ keep_count then [] else (sortByMtimeDesc g).drop keep_count

/-! ## `main` and the process exit code -/

/-- Module-level constant of `automate.py`. -/
def DAT_COLLECTIONS : List String := ["redump", "no-intro"]

/-- The environment `main` runs against: the discovered valid configuration
names, the DAT files obtained for each collection, whether the Retool
setup (clone-if-needed) succeeded, the initial per-(config, collection)
output-directory states, and the external tool's behaviour per
(config, collection, input file). -/
structure MainEnv where
  configs : List String
  redumpDats : List String
  noIntroDats : List String
  retoolCloneOk : Bool
  dirs : String → String → DirState
  invFor : String → String → String → RetoolInvocation

/-- `collection_dats`: a collection appears only when it yielded files. -/
def collectionDats (env : MainEnv) : List (String × List String) :=
  (if env.redumpDats.isEmpty then [] else [("redump", env.redumpDats)]) ++
    (if env.noIntroDats.isEmpty then [] else [("no-intro", env.noIntroDats)])

def totalDats (env : MainEnv) : Nat :=
  ((collectionDats env).map (fun p => p.2.length)).sum

/-- The per-(config, collection) processing loop of `main`: preserve-check,
cleanup, then the Retool runs. -/
def mainAllResults (env : MainEnv) : List ((String × String) × Results) :=
  env.configs.bind (fun cfg =>
    DAT_COLLECTIONS.bind (fun coll =>
      let dats := ((collectionDats env).lookup coll).getD []
      if dats.isEmpty then []
      else
        let st0 := env.dirs cfg coll
        let st1 := cleanup_previous_dats st0 (computePreserve st0 dats coll)
        [((cfg, coll),
          (process_all_dats_with_retool st1 dats coll cfg (env.invFor cfg coll)).2)]))

/-- `main` from `automate.py`, reduced to what it returns to the interpreter:
`sys.exit(1)` on no configurations, no DATs at all, or a failed Retool
setup; otherwise it processes everything and completes normally (exit 0),
whatever the per-file outcomes were. -/
def mainRun (env : MainEnv) : List ((String × String) × Results) × Nat :=
  if env.configs.isEmpty then ([], 1)
  else if totalDats env = 0 then ([], 1)
  else if !env.retoolCloneOk then ([], 1)
  else (mainAllResults env, 0)

/-- How the interpreter session ends: `main` ran to its own return or
`sys.exit`, or a `KeyboardInterrupt` arrived, or some other exception
escaped `main` (the `__main__` handlers turn the latter two into exit 1;
`SystemExit` from `sys.exit` passes through them untouched). -/
inductive RunFate
  | completed
  | interrupted
  | uncaughtError
deriving DecidableEq, Repr

/-- The process exit code of one run of the script. -/
def scriptExitCode (env : MainEnv) (fate : RunFate) : Nat :=
  match fate with
  | .interrupted => 1
  | .uncaughtError => 1
  | .completed => (mainRun env).2

/-! ## Derived definitions used by the verification statements -/

/-- The combined-output marker for "no title had any valid content". -/
def noValidMarker (out : String) : Bool :=
  hasSub out "No valid titles in input DAT file"

/-- The combined-output marker for "titles existed but none passed the
filters" (either of the two phrasings the script looks for). -/
def noTitlesMarker (out : String) : Bool :=
  hasSub out "No titles in the input DAT match your preferences" ||
    hasSub out "No DAT file has been created"

/-- The effect of `run_retool`'s move-and-record step on the directory
state: the renamed output replaces any file of the same name, and the
metadata entry for the system is rewritten. -/
def writeOutputState (st : DirState) (system_name new_name inputName : String) : DirState :=
  { files := new_name :: st.files.filter (fun f => f ≠ new_name),
    metadata := setMeta st.metadata system_name ⟨some inputName, none, new_name⟩ }

/-- The canonical output filename `run_retool` writes for a system under a
configuration (the produced temp file's suffix is always `.dat`, since it
came from a `*.dat` glob). -/
def outputName (system_name config_name : String) : String :=
  if config_name ≠ "" then
    system_name ++ " (Fresh1G1R - " ++ config_name ++ ")" ++ ".dat"
  else system_name ++ ".dat"

/-- All input filenames recorded across the five buckets, in bucket order. -/
def bucketInputs (r : Results) : List String :=
  r.successful.map Prod.fst ++ r.not_required ++ r.no_games ++ r.failed ++
    r.skipped.map Prod.fst

/-- No window-pattern match anywhere in the subject. -/
def noWinAt (pat : List (Char → Bool)) (l : List Char) : Prop :=
  ∀ j, windowMatch pat (l.drop j) = false

/-- A normalized system name `s` round-trips through the canonical output
naming: normalizing the stem of `outputName s config_name` gives back `s`. -/
@[reducible]
def sysWF (collection config_name s : String) : Prop :=
  extract_system_name (stemName (outputName s config_name)) collection = s

/-- Canonical-state invariant for one output directory: filenames are
unique, every `*.dat` file is the canonical output of some round-tripping
system name, and metadata keys are unique. -/
def FilesCanon (collection config_name : String) (st : DirState) : Prop :=
  st.files.Nodup ∧
    (∀ f ∈ st.files, isDatName f = true →
      ∃ s, sysWF collection config_name s ∧ f = outputName s config_name) ∧
    (st.metadata.map Prod.fst).Nodup

/-- The example Retool message of the spec. -/
def c6Output : String := "No valid titles in input DAT file. Reason: empty clone list"

/-- A report directory listing with three normalized groups of sizes 3, 7
and 10 (Redump naming: the group key cuts at ` (Retool`). -/
def c5Files : List RFile :=
  [⟨"A (Retool r1).txt", 1⟩, ⟨"A (Retool r2).txt", 2⟩, ⟨"A (Retool r3).txt", 3⟩,
   ⟨"B (Retool r1).txt", 11⟩, ⟨"B (Retool r2).txt", 12⟩, ⟨"B (Retool r3).txt", 13⟩,
   ⟨"B (Retool r4).txt", 14⟩, ⟨"B (Retool r5).txt", 15⟩, ⟨"B (Retool r6).txt", 16⟩,
   ⟨"B (Retool r7).txt", 17⟩,
   ⟨"C (Retool r1).txt", 21⟩, ⟨"C (Retool r2).txt", 22⟩, ⟨"C (Retool r3).txt", 23⟩,
   ⟨"C (Retool r4).txt", 24⟩, ⟨"C (Retool r5).txt", 25⟩, ⟨"C (Retool r6).txt", 26⟩,
   ⟨"C (Retool r7).txt", 27⟩, ⟨"C (Retool r8).txt", 28⟩, ⟨"C (Retool r9).txt", 29⟩,
   ⟨"C (Retool r10).txt", 30⟩]

/-- Initial directory state of the one-system-per-triple counterexample: a
previously processed output recorded under an older configuration tag. -/
def c3InitState : DirState :=
  { files := ["Sony (Fresh1G1R - Old).dat"],
    metadata := [("Sony",
      ⟨some "Sony (20250101-000000).dat", none, "Sony (Fresh1G1R - Old).dat"⟩)] }

/-- Two raw No-Intro DATs of the same system with different dates. -/
def c3Inputs : List String :=
  ["Sony (20250101-000000).dat", "Sony (20250102-000000).dat"]

/-- A tool oracle that always succeeds and produces one output DAT. -/
def c3Inv : String → RetoolInvocation :=
  fun _ => ⟨true, 0, [("retool out.dat", 1)], [], "", ""⟩

/-! # Theorems -/

/-! ## Helper lemmas: `run_retool` field characterizations -/

set_option maxHeartbeats 1000000 in
theorem run_retool_status_spec (st : DirState) (rc : Int) (pd pr : List (String × Nat))
    (sout serr : String) (inp coll cfg : String) :
    (run_retool st ⟨true, rc, pd, pr, sout, serr⟩ inp coll cfg).status =
      (if rc ≠ 0 then
         if noValidMarker (sout ++ "\n" ++ serr) then "no_games"
         else if noTitlesMarker (sout ++ "\n" ++ serr) then "not_required"
         else "failed"
       else if pd.isEmpty = false then "success"
       else if noTitlesMarker (sout ++ "\n" ++ serr) then "not_required"
       else if noValidMarker (sout ++ "\n" ++ serr) then "no_games"
       else "failed") := by
  unfold run_retool noValidMarker noTitlesMarker
  cases pd with
  | nil =>
    simp only [maxByMtime, List.isEmpty_nil]
    split_ifs <;> first | rfl | (exact absurd (by assumption) (by assumption)) | simp_all
  | cons a as =>
    simp only [maxByMtime, List.isEmpty_cons]
    split_ifs <;> first | rfl | (exact absurd (by assumption) (by assumption)) | simp_all

set_option maxHeartbeats 1000000 in
theorem run_retool_error_spec (st : DirState) (rc : Int) (pd pr : List (String × Nat))
    (sout serr : String) (inp coll cfg : String) :
    (run_retool st ⟨true, rc, pd, pr, sout, serr⟩ inp coll cfg).error_message =
      (if rc = 0 ∧ pd.isEmpty = false then none
       else some (extract_retool_error (sout ++ "\n" ++ serr))) := by
  unfold run_retool
  cases pd with
  | nil =>
    simp only [maxByMtime, List.isEmpty_nil]
    split_ifs <;> first | rfl | (exact absurd (by assumption) (by assumption)) | simp_all
  | cons a as =>
    simp only [maxByMtime, List.isEmpty_cons]
    split_ifs <;> first | rfl | (exact absurd (by assumption) (by assumption)) | simp_all

set_option maxHeartbeats 1000000 in
theorem run_retool_state_spec (st : DirState) (rc : Int) (pd pr : List (String × Nat))
    (sout serr : String) (inp coll cfg : String) :
    (run_retool st ⟨true, rc, pd, pr, sout, serr⟩ inp coll cfg).state =
      (match maxByMtime pd with
       | none => st
       | some temp =>
         writeOutputState st (extract_system_name (stemName inp) coll)
           (if cfg ≠ "" then
             extract_system_name (stemName inp) coll ++ " (Fresh1G1R - " ++ cfg ++ ")" ++
               pathSuffix temp.1
            else extract_system_name (stemName inp) coll ++ pathSuffix temp.1) inp) := by
  unfold run_retool writeOutputState
  cases hm : maxByMtime pd with
  | none =>
    simp only [hm]
    split_ifs <;> first | rfl | simp_all
  | some temp =>
    simp only [hm]
    split_ifs <;> first | rfl | simp_all

/-! ## C1 -/

/-- C1 (counterexample): the claim puts the no-valid-content marker first in
priority for every invocation, predicting status `"no_games"` whenever the
marker is present; but on a zero exit status with a produced `.dat`,
`run_retool` returns `"success"` although the marker is present in the
combined output. -/
theorem c1_run_retool_priority_counterexample :
    noValidMarker ("No valid titles in input DAT file" ++ "\n" ++ "") = true ∧
    (run_retool ⟨[], []⟩ ⟨true, 0, [("out.dat", 1)], [], "No valid titles in input DAT file", ""⟩
        "Sony (20250101-000000).dat" "no-intro" "A").status = "success" ∧
    ("success" : String) ≠ "no_games" := by
  refine ⟨by decide, ?_, by decide⟩
  decide

/-- C1 (amended): the claimed priority order holds only on the non-zero-exit
path (no-valid-content first, then nothing-passed-filters, then failed).
With zero exit status a produced `.dat` yields `"success"` even when a
marker is present; with zero exit and no `.dat` the nothing-passed-filters
marker is checked before the no-valid-content marker; otherwise
`"failed"`. -/
theorem c1_run_retool_priority_amended (st : DirState) (rc : Int)
    (pd pr : List (String × Nat)) (sout serr : String) (inp coll cfg : String) :
    (run_retool st ⟨true, rc, pd, pr, sout, serr⟩ inp coll cfg).status =
      (if rc ≠ 0 then
         if noValidMarker (sout ++ "\n" ++ serr) then "no_games"
         else if noTitlesMarker (sout ++ "\n" ++ serr) then "not_required"
         else "failed"
       else if pd.isEmpty = false then "success"
       else if noTitlesMarker (sout ++ "\n" ++ serr) then "not_required"
       else if noValidMarker (sout ++ "\n" ++ serr) then "no_games"
       else "failed") :=
  run_retool_status_spec st rc pd pr sout serr inp coll cfg

/-! ## C6 -/

/-- C6: a run whose combined output is the line
`No valid titles in input DAT file. Reason: empty clone list` and which
produced no `.dat` classifies as `"no_games"` with exactly that line as the
extracted message, whatever the exit status was. -/
theorem c6_no_games_message (rc : Int) :
    (run_retool ⟨[], []⟩ ⟨true, rc, [], [], c6Output, ""⟩
        "Sony (20250101-000000).dat" "no-intro" "A").status = "no_games" ∧
    (run_retool ⟨[], []⟩ ⟨true, rc, [], [], c6Output, ""⟩
        "Sony (20250101-000000).dat" "no-intro" "A").error_message = some c6Output := by
  have hs := run_retool_status_spec ⟨[], []⟩ rc [] [] c6Output ""
    "Sony (20250101-000000).dat" "no-intro" "A"
  have he := run_retool_error_spec ⟨[], []⟩ rc [] [] c6Output ""
    "Sony (20250101-000000).dat" "no-intro" "A"
  by_cases h : rc = 0
  · subst h
    rw [hs, he]
    exact ⟨by decide, by decide⟩
  · rw [hs, he]
    rw [if_pos h, if_pos (by decide), if_neg (by simp [h])]
    exact ⟨rfl, by decide⟩

/-! ## C7 -/

/-- C7: the normalizer maps the stem
`Sony - PlayStation (2025-10-23 18-11-28) - Datfile (77)` with collection
`redump` to exactly `Sony - PlayStation`. -/
theorem c7_normalizer_example :
    extract_system_name "Sony - PlayStation (2025-10-23 18-11-28) - Datfile (77)" "redump" =
      "Sony - PlayStation" := by decide

/-! ## Helper lemmas: the skip check and the per-file loop -/

theorem check_eq_some_iff (st : DirState) (inp coll out : String) (h : inp ≠ "") :
    check_if_already_processed st inp coll = some out ↔
      ∃ e, lookupMeta st.metadata (extract_system_name (stemName inp) coll) = some e ∧
        storedName e = some inp ∧ e.output_path ∈ st.files ∧ out = e.output_path := by
  unfold check_if_already_processed
  cases hl : lookupMeta st.metadata (extract_system_name (stemName inp) coll) with
  | none => simp [hl]
  | some e =>
    simp only [hl]
    by_cases hf : e.output_path ∈ st.files
    · rw [if_pos hf]
      cases hs : storedName e with
      | none =>
        simp only []
        constructor
        · intro h'; cases h'
        · rintro ⟨e', he', hsn, _, _⟩
          rw [Option.some.injEq] at he'
          rw [← he', hs] at hsn
          cases hsn
      | some n =>
        simp only []
        by_cases hcond : n ≠ "" ∧ inp = n
        · rw [if_pos hcond]
          constructor
          · intro h'
            rw [Option.some.injEq] at h'
            exact ⟨e, rfl, by rw [hs, hcond.2], hf, h'.symm⟩
          · rintro ⟨e', he', hsn, _, hout⟩
            rw [Option.some.injEq] at he'
            rw [hout, he']
        · rw [if_neg hcond]
          constructor
          · intro h'; cases h'
          · rintro ⟨e', he', hsn, _, _⟩
            rw [Option.some.injEq] at he'
            rw [← he', hs] at hsn
            rw [Option.some.injEq] at hsn
            exact absurd ⟨fun hne => h (hne ▸ hsn.symm ▸ rfl), hsn.symm⟩ hcond
    · rw [if_neg hf]
      constructor
      · intro h'; cases h'
      · rintro ⟨e', he', _, hmem, _⟩
        rw [Option.some.injEq] at he'
        exact absurd (he' ▸ hmem) hf

theorem processOneDat_skip_spec (st : DirState) (inp coll cfg : String)
    (inv : RetoolInvocation) (nm : String)
    (h : check_if_already_processed st inp coll = some nm) :
    processOneDat st inp coll cfg inv = ⟨st, .skipped, false, some nm⟩ := by
  unfold processOneDat ALWAYS_REPROCESS
  simp [h]

theorem processOneDat_invoked_run (st : DirState) (inp coll cfg : String)
    (inv : RetoolInvocation)
    (h : check_if_already_processed st inp coll = none) :
    (processOneDat st inp coll cfg inv).invoked = true := by
  unfold processOneDat ALWAYS_REPROCESS
  simp only [h, Bool.not_false, if_true]
  split_ifs <;> rfl

theorem processOneDat_state_run (st : DirState) (inp coll cfg : String)
    (inv : RetoolInvocation)
    (h : check_if_already_processed st inp coll = none) :
    (processOneDat st inp coll cfg inv).state = (run_retool st inv inp coll cfg).state := by
  unfold processOneDat ALWAYS_REPROCESS
  simp only [h, Bool.not_false, if_true]
  split_ifs <;> rfl

/-! ## C2 -/

/-- C2: a processing-pass iteration files the input under `skipped` without
invoking the tool exactly when the metadata store has an entry for the
input's normalized system name whose effective stored input filename equals
the input's filename and whose recorded output still exists — and in that
case the recorded output path is what the skip reports. -/
theorem c2_skip_iff (st : DirState) (inp coll cfg : String) (inv : RetoolInvocation)
    (h : inp ≠ "") :
    ((processOneDat st inp coll cfg inv).bucket = Bucket.skipped ∧
      (processOneDat st inp coll cfg inv).invoked = false) ↔
      ∃ e, lookupMeta st.metadata (extract_system_name (stemName inp) coll) = some e ∧
        storedName e = some inp ∧ e.output_path ∈ st.files ∧
        (processOneDat st inp coll cfg inv).recorded = some e.output_path := by
  cases hc : check_if_already_processed st inp coll with
  | some nm =>
    rw [processOneDat_skip_spec st inp coll cfg inv nm hc]
    obtain ⟨e, he, hsn, hmem, hout⟩ := (check_eq_some_iff st inp coll nm h).mp hc
    constructor
    · intro _
      exact ⟨e, he, hsn, hmem, by rw [hout]⟩
    · intro _
      exact ⟨rfl, rfl⟩
  | none =>
    have hinv := processOneDat_invoked_run st inp coll cfg inv hc
    constructor
    · rintro ⟨_, hfalse⟩
      rw [hinv] at hfalse
      cases hfalse
    · rintro ⟨e, he, hsn, hmem, _⟩
      exfalso
      have h2 : check_if_already_processed st inp coll = some e.output_path :=
        (check_eq_some_iff st inp coll e.output_path h).mpr ⟨e, he, hsn, hmem, rfl⟩
      rw [hc] at h2
      cases h2

/-- C2 witness: a concrete state with a matching metadata entry, where the
iteration does skip and report the recorded output. -/
theorem c2_skip_iff_witness :
    (("Sony (20250101-000000).dat" : String) ≠ "") ∧
    (((processOneDat
          ⟨["Sony (Fresh1G1R - A).dat"],
           [("Sony", ⟨some "Sony (20250101-000000).dat", none, "Sony (Fresh1G1R - A).dat"⟩)]⟩
          "Sony (20250101-000000).dat" "no-intro" "A" (c3Inv "x")).bucket = Bucket.skipped ∧
      (processOneDat
          ⟨["Sony (Fresh1G1R - A).dat"],
           [("Sony", ⟨some "Sony (20250101-000000).dat", none, "Sony (Fresh1G1R - A).dat"⟩)]⟩
          "Sony (20250101-000000).dat" "no-intro" "A" (c3Inv "x")).invoked = false) ↔
      ∃ e, lookupMeta [("Sony", ⟨some "Sony (20250101-000000).dat", none, "Sony (Fresh1G1R - A).dat"⟩)]
            (extract_system_name (stemName "Sony (20250101-000000).dat") "no-intro") = some e ∧
        storedName e = some "Sony (20250101-000000).dat" ∧
        e.output_path ∈ ["Sony (Fresh1G1R - A).dat"] ∧
        (processOneDat
          ⟨["Sony (Fresh1G1R - A).dat"],
           [("Sony", ⟨some "Sony (20250101-000000).dat", none, "Sony (Fresh1G1R - A).dat"⟩)]⟩
          "Sony (20250101-000000).dat" "no-intro" "A" (c3Inv "x")).recorded = some e.output_path) :=
  ⟨by decide,
   c2_skip_iff
     ⟨["Sony (Fresh1G1R - A).dat"],
      [("Sony", ⟨some "Sony (20250101-000000).dat", none, "Sony (Fresh1G1R - A).dat"⟩)]⟩
     "Sony (20250101-000000).dat" "no-intro" "A" (c3Inv "x") (by decide)⟩

/-! ## C10 -/

theorem bucketInputs_addResult (r : Results) (f : String) (s : StepResult) :
    (bucketInputs (addResult r f s)).Perm (bucketInputs r ++ [f]) := by
  cases hb : s.bucket <;>
    simp only [addResult, hb, bucketInputs, List.map_append, List.map_cons, List.map_nil] <;>
    (rw [List.perm_iff_count]; intro a;
     simp only [List.count_append, List.count_cons, List.count_nil]; omega)

theorem processAllGo_perm (coll cfg : String) (invFor : String → RetoolInvocation)
    (fs : List String) : ∀ (st : DirState) (acc : Results),
    (bucketInputs (processAllGo coll cfg invFor st fs acc).2).Perm (bucketInputs acc ++ fs) := by
  induction fs with
  | nil => intro st acc; simp [processAllGo]
  | cons f rest ih =>
    intro st acc
    simp only [processAllGo]
    refine (ih _ _).trans ?_
    have h1 := bucketInputs_addResult acc f (processOneDat st f coll cfg (invFor f))
    have h2 : bucketInputs acc ++ f :: rest = (bucketInputs acc ++ [f]) ++ rest := by simp
    rw [h2]
    exact h1.append_right rest

/-- C10: every input file lands in exactly one of the five buckets — the
inputs recorded across the buckets are a permutation of the input list, and
the bucket sizes sum to the number of inputs. -/
theorem c10_bucket_partition (st : DirState) (dat_files : List String)
    (collection config_name : String) (invFor : String → RetoolInvocation) :
    (bucketInputs
        (process_all_dats_with_retool st dat_files collection config_name invFor).2).Perm
      dat_files ∧
    ((process_all_dats_with_retool st dat_files collection config_name invFor).2.successful.length +
     (process_all_dats_with_retool st dat_files collection config_name invFor).2.not_required.length +
     (process_all_dats_with_retool st dat_files collection config_name invFor).2.no_games.length +
     (process_all_dats_with_retool st dat_files collection config_name invFor).2.failed.length +
     (process_all_dats_with_retool st dat_files collection config_name invFor).2.skipped.length =
      dat_files.length) := by
  have hp := processAllGo_perm collection config_name invFor dat_files st emptyResults
  have hp2 : (bucketInputs
      (process_all_dats_with_retool st dat_files collection config_name invFor).2).Perm
      dat_files := by
    refine hp.trans ?_
    simp [bucketInputs, emptyResults]
  refine ⟨hp2, ?_⟩
  have hlen := hp2.length_eq
  simp only [bucketInputs, List.length_append, List.length_map] at hlen
  omega

/-! ## C4 -/

theorem filter_decide_eq_singleton {l : List String} {a : String} (hm : a ∈ l)
    (hn : l.Nodup) : l.filter (fun f => decide (f = a)) = [a] := by
  induction l with
  | nil => cases hm
  | cons b bs ih =>
    rw [List.nodup_cons] at hn
    rcases List.mem_cons.mp hm with hba | hmem
    · subst hba
      rw [List.filter_cons, if_pos (by simp)]
      rw [List.filter_eq_nil_iff.mpr ?_]
      · intro x hx hdx
        rw [decide_eq_true_eq] at hdx
        exact hn.1 (hdx ▸ hx)
    · have hne : b ≠ a := fun hba => hn.1 (hba ▸ hmem)
      rw [List.filter_cons, if_neg (by simp [hne])]
      exact ih hmem hn.2

/-- C4: after `cleanup_old_redump_dat` runs for a newly downloaded file that
is present in the directory, the `*.dat` files whose normalized Redump
system name equals the new file's reduce to exactly the new file, and every
file with a different normalized system name (or that is not a `*.dat`)
is untouched. -/
theorem c4_redump_cleanup (files : List String) (newName : String)
    (h1 : newName ∈ files) (h2 : files.Nodup) (h3 : isDatName newName = true) :
    (cleanup_old_redump_dat files newName).filter
        (fun f => isDatName f && decide (extract_system_name (stemName f) "redump" =
          extract_system_name (stemName newName) "redump")) = [newName] ∧
    ∀ f ∈ files,
      (isDatName f = false ∨
        extract_system_name (stemName f) "redump" ≠
          extract_system_name (stemName newName) "redump") →
      f ∈ cleanup_old_redump_dat files newName := by
  unfold cleanup_old_redump_dat
  rw [if_pos h1]
  constructor
  · rw [List.filter_filter]
    have hcong :
        files.filter (fun a =>
          (isDatName a && decide (extract_system_name (stemName a) "redump" =
            extract_system_name (stemName newName) "redump")) &&
          !(isDatName a && decide (a ≠ newName) &&
            decide (extract_system_name (stemName a) "redump" =
              extract_system_name (stemName newName) "redump"))) =
        files.filter (fun f => decide (f = newName)) := by
      refine List.filter_congr ?_
      intro x _
      by_cases hx : x = newName
      · subst hx
        simp [h3]
      · by_cases hd : isDatName x = true
        · by_cases hs : extract_system_name (stemName x) "redump" =
              extract_system_name (stemName newName) "redump"
          · simp [hx, hd, hs]
          · simp [hx, hd, hs]
        · simp only [Bool.not_eq_true] at hd
          simp [hx, hd]
    rw [hcong]
    exact filter_decide_eq_singleton h1 h2
  · intro f hf hcase
    refine List.mem_filter.mpr ⟨hf, ?_⟩
    rcases hcase with hd | hs
    · simp [hd]
    · simp [hs]

/-- C4 witness: a directory with two dated Redump DATs of the same system,
one of a different system, and a non-DAT file. -/
theorem c4_redump_cleanup_witness :
    (("Sony - PlayStation (2025-01-02 00-00-00).dat" : String) ∈
        ["Sony - PlayStation (2025-01-02 00-00-00).dat",
         "Sony - PlayStation (2025-01-01 00-00-00).dat",
         "Sega - Dreamcast (2025-01-01 00-00-00).dat", "notes.txt"]) ∧
    (["Sony - PlayStation (2025-01-02 00-00-00).dat",
      "Sony - PlayStation (2025-01-01 00-00-00).dat",
      "Sega - Dreamcast (2025-01-01 00-00-00).dat", "notes.txt"] : List String).Nodup ∧
    isDatName "Sony - PlayStation (2025-01-02 00-00-00).dat" = true ∧
    ((cleanup_old_redump_dat
        ["Sony - PlayStation (2025-01-02 00-00-00).dat",
         "Sony - PlayStation (2025-01-01 00-00-00).dat",
         "Sega - Dreamcast (2025-01-01 00-00-00).dat", "notes.txt"]
        "Sony - PlayStation (2025-01-02 00-00-00).dat").filter
        (fun f => isDatName f && decide (extract_system_name (stemName f) "redump" =
          extract_system_name (stemName "Sony - PlayStation (2025-01-02 00-00-00).dat") "redump")) =
      ["Sony - PlayStation (2025-01-02 00-00-00).dat"]) :=
  ⟨by decide, by decide, by decide,
   (c4_redump_cleanup
      ["Sony - PlayStation (2025-01-02 00-00-00).dat",
       "Sony - PlayStation (2025-01-01 00-00-00).dat",
       "Sega - Dreamcast (2025-01-01 00-00-00).dat", "notes.txt"]
      "Sony - PlayStation (2025-01-02 00-00-00).dat"
      (by decide) (by decide) (by decide)).1⟩

/-! ## C9 -/

/-- C9: the process exit code is 0 or 1, and it is 1 exactly on interrupt,
uncaught error, no valid configurations, no DAT files of any collection, or
failed Retool setup — in particular a completed run exits 0 whatever the
per-file outcomes in `mainAllResults` were. -/
theorem c9_exit_codes (env : MainEnv) (fate : RunFate) :
    (scriptExitCode env fate = 0 ∨ scriptExitCode env fate = 1) ∧
    (scriptExitCode env fate = 1 ↔
      (fate = RunFate.interrupted ∨ fate = RunFate.uncaughtError ∨ env.configs = [] ∨
        totalDats env = 0 ∨ env.retoolCloneOk = false)) := by
  cases fate with
  | interrupted => simp [scriptExitCode]
  | uncaughtError => simp [scriptExitCode]
  | completed =>
    simp only [scriptExitCode, mainRun]
    split_ifs with hA hB hC
    · simp_all [List.isEmpty_iff]
    · simp_all [List.isEmpty_iff]
    · simp_all [List.isEmpty_iff]
    · simp_all [List.isEmpty_iff]

/-! ## C5 -/

theorem mtimeGe_trans (a b c : RFile) (hab : mtimeGe a b = true) (hbc : mtimeGe b c = true) :
    mtimeGe a c = true := by
  simp only [mtimeGe, decide_eq_true_eq] at *
  omega

theorem mtimeGe_total (a b : RFile) : (mtimeGe a b || mtimeGe b a) = true := by
  simp only [mtimeGe, Bool.or_eq_true, decide_eq_true_eq]
  omega

theorem sortByMtimeDesc_sorted (g : List RFile) :
    List.Sorted (fun a b => b.mtime ≤ a.mtime) (sortByMtimeDesc g) := by
  have h := List.sorted_mergeSort mtimeGe_trans mtimeGe_total g
  refine h.imp ?_
  intro a b hab
  simpa [mtimeGe] using hab

theorem sortByMtimeDesc_perm (g : List RFile) : (sortByMtimeDesc g).Perm g :=
  List.mergeSort_perm g mtimeGe

theorem sortByMtimeDesc_length (g : List RFile) : (sortByMtimeDesc g).length = g.length :=
  List.length_mergeSort g

/-- C5: per normalized group, retention keeps exactly `min keep_count size`
files, the kept and the deleted files together are the group, and every
kept file was modified at least as recently as every deleted file of the
group; instantiated for `keep_count = 7` and group sizes 3, 7 and 10, the
retained counts are 3, 7 and 7. -/
theorem c5_report_retention :
    (∀ (files : List RFile) (keep_count : Nat) (collection key : String),
      (keptOfGroup (groupOfKey files collection key) keep_count).length =
        min keep_count (groupOfKey files collection key).length ∧
      ((keptOfGroup (groupOfKey files collection key) keep_count) ++
        deletedOfGroup (groupOfKey files collection key) keep_count).Perm
        (groupOfKey files collection key) ∧
      (∀ k ∈ keptOfGroup (groupOfKey files collection key) keep_count,
        ∀ d ∈ deletedOfGroup (groupOfKey files collection key) keep_count,
          d.mtime ≤ k.mtime)) ∧
    ((keptOfGroup (groupOfKey c5Files "redump" "A") 7).length = 3 ∧
     (keptOfGroup (groupOfKey c5Files "redump" "B") 7).length = 7 ∧
     (keptOfGroup (groupOfKey c5Files "redump" "C") 7).length = 7 ∧
     (groupOfKey c5Files "redump" "A").length = 3 ∧
     (groupOfKey c5Files "redump" "B").length = 7 ∧
     (groupOfKey c5Files "redump" "C").length = 10) := by
  have hgen : ∀ (files : List RFile) (keep_count : Nat) (collection key : String),
      (keptOfGroup (groupOfKey files collection key) keep_count).length =
        min keep_count (groupOfKey files collection key).length ∧
      ((keptOfGroup (groupOfKey files collection key) keep_count) ++
        deletedOfGroup (groupOfKey files collection key) keep_count).Perm
        (groupOfKey files collection key) ∧
      (∀ k ∈ keptOfGroup (groupOfKey files collection key) keep_count,
        ∀ d ∈ deletedOfGroup (groupOfKey files collection key) keep_count,
          d.mtime ≤ k.mtime) := by
    intro files keep_count collection key
    set g := groupOfKey files collection key with hg
    by_cases hle : g.length ≤ keep_count
    · refine ⟨?_, ?_, ?_⟩
      · rw [keptOfGroup, if_pos hle]
        omega
      · rw [keptOfGroup, if_pos hle, deletedOfGroup, if_pos hle]
        simp
      · intro k _ d hd
        rw [deletedOfGroup, if_pos hle] at hd
        cases hd
    · refine ⟨?_, ?_, ?_⟩
      · rw [keptOfGroup, if_neg hle, List.length_take, sortByMtimeDesc_length]
      · rw [keptOfGroup, if_neg hle, deletedOfGroup, if_neg hle,
          List.take_append_drop]
        exact sortByMtimeDesc_perm g
      · intro k hk d hd
        rw [keptOfGroup, if_neg hle] at hk
        rw [deletedOfGroup, if_neg hle] at hd
        exact (sortByMtimeDesc_sorted g).rel_of_mem_take_of_mem_drop hk hd
  refine ⟨hgen, ?_, ?_, ?_, by decide, by decide, by decide⟩
  · rw [(hgen c5Files 7 "redump" "A").1]
    decide
  · rw [(hgen c5Files 7 "redump" "B").1]
    decide
  · rw [(hgen c5Files 7 "redump" "C").1]
    decide

/-! ## Helper lemmas: window patterns, strips, and the normalizer -/

theorem windowMatch_of_take {pat : List (Char → Bool)} :
    ∀ {m : Nat} {l : List Char}, windowMatch pat (l.take m) = true →
      windowMatch pat l = true := by
  induction pat with
  | nil => intro m l _; rfl
  | cons p ps ih =>
    intro m l h
    cases m with
    | zero => simp [windowMatch] at h
    | succ m' =>
      cases l with
      | nil => simpa using h
      | cons c cs =>
        simp only [List.take_succ_cons, windowMatch, Bool.and_eq_true] at h ⊢
        exact ⟨h.1, ih h.2⟩

theorem findWin_some_min {pat : List (Char → Bool)} :
    ∀ {l : List Char} {i : Nat}, findWin pat l = some i →
      ∀ j < i, windowMatch pat (l.drop j) = false := by
  intro l
  induction l with
  | nil =>
    intro i h j hj
    unfold findWin at h
    by_cases hw : windowMatch pat [] = true
    · rw [if_pos hw] at h
      injection h with h'
      omega
    · rw [if_neg hw] at h
      cases h
  | cons c cs ih =>
    intro i h j hj
    unfold findWin at h
    by_cases hw : windowMatch pat (c :: cs) = true
    · rw [if_pos hw] at h
      injection h with h'
      omega
    · rw [if_neg hw] at h
      cases hfc : findWin pat cs with
      | none => rw [hfc] at h; cases h
      | some i' =>
        rw [hfc] at h
        simp only [Option.map_some'] at h
        injection h with h'
        cases j with
        | zero => simpa using hw
        | succ j' =>
          simp only [List.drop_succ_cons]
          exact ih hfc j' (by omega)

theorem findWin_none {pat : List (Char → Bool)} :
    ∀ {l : List Char}, findWin pat l = none → ∀ j, windowMatch pat (l.drop j) = false := by
  intro l
  induction l with
  | nil =>
    intro h j
    unfold findWin at h
    by_cases hw : windowMatch pat [] = true
    · rw [if_pos hw] at h; cases h
    · simpa using hw
  | cons c cs ih =>
    intro h j
    unfold findWin at h
    by_cases hw : windowMatch pat (c :: cs) = true
    · rw [if_pos hw] at h; cases h
    · rw [if_neg hw] at h
      cases hfc : findWin pat cs with
      | some i' => rw [hfc] at h; cases h
      | none =>
        cases j with
        | zero => simpa using hw
        | succ j' =>
          simp only [List.drop_succ_cons]
          exact ih hfc j'

theorem findWin_eq_none_of {pat : List (Char → Bool)} :
    ∀ {l : List Char}, (∀ j, windowMatch pat (l.drop j) = false) → findWin pat l = none := by
  intro l
  induction l with
  | nil =>
    intro h
    unfold findWin
    rw [if_neg]
    simpa using h 0
  | cons c cs ih =>
    intro h
    unfold findWin
    rw [if_neg, ih, Option.map_none']
    · intro j
      have := h (j + 1)
      simpa [List.drop_succ_cons] using this
    · simpa using h 0

theorem noWinAt_drop {pat : List (Char → Bool)} {l : List Char} (a : Nat)
    (h : noWinAt pat l) : noWinAt pat (l.drop a) := by
  intro j
  rw [List.drop_drop]
  exact h (a + j)

theorem noWinAt_take {pat : List (Char → Bool)} {l : List Char} (b : Nat)
    (h : noWinAt pat l) : noWinAt pat (l.take b) := by
  intro j
  rw [List.drop_take]
  by_contra hx
  rw [Bool.not_eq_false] at hx
  have h2 := windowMatch_of_take hx
  rw [h j] at h2
  cases h2

theorem noWinAt_prefix_of_findWin_some {pat : List (Char → Bool)} {l : List Char} {i : Nat}
    (hp : pat ≠ []) (h : findWin pat l = some i) : noWinAt pat (l.take i) := by
  intro j
  rw [List.drop_take]
  by_cases hj : j < i
  · by_contra hx
    rw [Bool.not_eq_false] at hx
    have h2 := windowMatch_of_take hx
    rw [findWin_some_min h j hj] at h2
    cases h2
  · have h0 : i - j = 0 := by omega
    rw [h0, List.take_zero]
    cases pat with
    | nil => exact absurd rfl hp
    | cons p ps => rfl

theorem pyStripL_take_drop (u : List Char) :
    ∃ a b, pyStripL u = ((u.drop a).take b) := by
  obtain ⟨a, ha⟩ : ∃ a, u.dropWhile pyIsSpace = u.drop a :=
    ⟨u.length - (u.dropWhile pyIsSpace).length,
     List.suffix_iff_eq_drop.mp (List.dropWhile_suffix pyIsSpace)⟩
  have hpre : pyStripL u <+: u.dropWhile pyIsSpace := by
    have h2 := (List.dropWhile_suffix (l := (u.dropWhile pyIsSpace).reverse) pyIsSpace).reverse
    rwa [List.reverse_reverse] at h2
  refine ⟨a, (pyStripL u).length, ?_⟩
  have h3 := List.prefix_iff_eq_take.mp hpre
  rw [← ha]
  exact h3

theorem noWinAt_pyStripL {pat : List (Char → Bool)} {u : List Char}
    (h : noWinAt pat u) : noWinAt pat (pyStripL u) := by
  obtain ⟨a, b, hab⟩ := pyStripL_take_drop u
  rw [hab]
  exact noWinAt_take b (noWinAt_drop a h)

theorem dropWhile_eq_self_of_head {p : Char → Bool} {l : List Char}
    (h : ∀ c, l.head? = some c → p c = false) : l.dropWhile p = l := by
  cases l with
  | nil => rfl
  | cons c cs =>
    rw [List.dropWhile_cons, if_neg]
    simp [h c rfl]

theorem head_dropWhile_false (p : Char → Bool) (l : List Char) :
    ∀ c, (l.dropWhile p).head? = some c → p c = false := by
  induction l with
  | nil => intro c h; cases h
  | cons a as ih =>
    intro c h
    rw [List.dropWhile_cons] at h
    by_cases hp : p a = true
    · rw [if_pos hp] at h
      exact ih c h
    · rw [if_neg hp] at h
      injection h with h'
      rw [← h']
      simpa using hp

theorem head?_take_eq {l : List Char} {m : Nat} (hm : m ≠ 0) :
    (l.take m).head? = l.head? := by
  cases l with
  | nil => simp
  | cons c cs =>
    cases m with
    | zero => exact absurd rfl hm
    | succ m' => simp [List.take_succ_cons]

theorem pyStripL_idem (x : List Char) : pyStripL (pyStripL x) = pyStripL x := by
  have hy : pyStripL x = ((x.dropWhile pyIsSpace).reverse.dropWhile pyIsSpace).reverse := rfl
  have h1 : (pyStripL x).dropWhile pyIsSpace = pyStripL x := by
    apply dropWhile_eq_self_of_head
    intro c hc
    have hpre : pyStripL x <+: x.dropWhile pyIsSpace := by
      have h2 := (List.dropWhile_suffix (l := (x.dropWhile pyIsSpace).reverse) pyIsSpace).reverse
      rwa [List.reverse_reverse] at h2
    have hyne : pyStripL x ≠ [] := by
      intro h0
      rw [h0] at hc
      cases hc
    have hlen : (pyStripL x).length ≠ 0 := by simpa using hyne
    have hytake := List.prefix_iff_eq_take.mp hpre
    rw [hytake, head?_take_eq hlen] at hc
    exact head_dropWhile_false pyIsSpace x c hc
  have h2 : (pyStripL x).reverse.dropWhile pyIsSpace = (pyStripL x).reverse := by
    apply dropWhile_eq_self_of_head
    intro c hc
    have h3 : (pyStripL x).reverse = (x.dropWhile pyIsSpace).reverse.dropWhile pyIsSpace := by
      rw [hy, List.reverse_reverse]
    rw [h3] at hc
    exact head_dropWhile_false pyIsSpace _ c hc
  conv_lhs => rw [pyStripL]
  rw [h1, h2, List.reverse_reverse]

theorem extract_data_ni (s : String) :
    (extract_system_name s "no-intro").data =
      (match findWin dateWinNI (freshStripL s.data) with
       | some i => pyStripL ((freshStripL s.data).take i)
       | none => freshStripL s.data) := by
  unfold extract_system_name
  rw [if_pos rfl]
  cases h : findWin dateWinNI (freshStripL s.data) <;> simp [h]

theorem extract_data_rd (s c : String) (hc : c ≠ "no-intro") :
    (extract_system_name s c).data =
      (match findWin dateWinRD (datfileSubL (freshStripL s.data)) with
       | some i => pyStripL ((datfileSubL (freshStripL s.data)).take i)
       | none => pyStripL (retoolCutL (datfileSubL (freshStripL s.data)))) := by
  unfold extract_system_name
  rw [if_neg hc]
  cases h : findWin dateWinRD (datfileSubL (freshStripL s.data)) <;> simp [h]

theorem dateWinNI_ne_nil : dateWinNI ≠ [] := by simp [dateWinNI]

theorem dateWinRD_ne_nil : dateWinRD ≠ [] := by simp [dateWinRD]

theorem noDate_extract_ni (s : String) :
    noWinAt dateWinNI (extract_system_name s "no-intro").data := by
  rw [extract_data_ni]
  cases h : findWin dateWinNI (freshStripL s.data) with
  | none =>
    simp only [h]
    intro j
    exact findWin_none h j
  | some i =>
    simp only [h]
    exact noWinAt_pyStripL (noWinAt_prefix_of_findWin_some dateWinNI_ne_nil h)

theorem noDate_extract_rd (s c : String) (hc : c ≠ "no-intro") :
    noWinAt dateWinRD (extract_system_name s c).data := by
  rw [extract_data_rd s c hc]
  cases h : findWin dateWinRD (datfileSubL (freshStripL s.data)) with
  | none =>
    simp only [h]
    apply noWinAt_pyStripL
    unfold retoolCutL
    cases h2 : findSubL retoolMarker (datfileSubL (freshStripL s.data)) with
    | none =>
      simp only [h2]
      intro j
      exact findWin_none h j
    | some k =>
      simp only [h2]
      exact noWinAt_take k (fun j => findWin_none h j)
  | some i =>
    simp only [h]
    exact noWinAt_pyStripL (noWinAt_prefix_of_findWin_some dateWinRD_ne_nil h)

theorem extract_rd_strip (s c : String) (hc : c ≠ "no-intro") :
    pyStripL (extract_system_name s c).data = (extract_system_name s c).data := by
  rw [extract_data_rd s c hc]
  cases h : findWin dateWinRD (datfileSubL (freshStripL s.data)) <;>
    simp [h, pyStripL_idem]

theorem extract_fixpoint_ni (t : String)
    (hfs : freshStripL t.data = t.data)
    (hnd : noWinAt dateWinNI t.data) :
    extract_system_name t "no-intro" = t := by
  unfold extract_system_name
  rw [if_pos rfl]
  simp only [hfs, findWin_eq_none_of hnd]

theorem extract_fixpoint_rd (t c : String) (hc : c ≠ "no-intro")
    (hfs : freshStripL t.data = t.data)
    (hds : datfileSubL t.data = t.data)
    (hrc : retoolCutL t.data = t.data)
    (hnd : noWinAt dateWinRD t.data)
    (hps : pyStripL t.data = t.data) :
    extract_system_name t c = t := by
  unfold extract_system_name
  rw [if_neg hc]
  simp only [hfs, hds, findWin_eq_none_of hnd, hrc, hps]

/-! ## C8 -/

/-- C8 (counterexample): the normalizer is not idempotent.  For the No-Intro
stem `Sony (Fresh1G1R - A) (20250101-000000)` the first application keeps
the embedded `(Fresh1G1R - A)` marker (the trailing date blocks the
end-anchored marker regex), while the second application strips it. -/
theorem c8_idempotent_counterexample :
    extract_system_name
        (extract_system_name "Sony (Fresh1G1R - A) (20250101-000000)" "no-intro") "no-intro" ≠
      extract_system_name "Sony (Fresh1G1R - A) (20250101-000000)" "no-intro" ∧
    extract_system_name "Sony (Fresh1G1R - A) (20250101-000000)" "no-intro" =
      "Sony (Fresh1G1R - A)" ∧
    extract_system_name "Sony (Fresh1G1R - A)" "no-intro" = "Sony" :=
  ⟨by decide, by decide, by decide⟩

/-- C8 (amended): the normalizer is idempotent on every stem whose
once-normalized form is free of the marker shapes a second pass could still
remove — no trailing `(Fresh1G1R - ...)` marker, and (for the Redump
branch) no ` - Datfile (N)` infix and no ` (Retool` marker. -/
theorem c8_idempotent_amended (s c : String)
    (h1 : freshStripL (extract_system_name s c).data = (extract_system_name s c).data)
    (h2 : c ≠ "no-intro" →
      datfileSubL (extract_system_name s c).data = (extract_system_name s c).data ∧
      retoolCutL (extract_system_name s c).data = (extract_system_name s c).data) :
    extract_system_name (extract_system_name s c) c = extract_system_name s c := by
  by_cases hc : c = "no-intro"
  · subst hc
    exact extract_fixpoint_ni _ h1 (noDate_extract_ni s)
  · obtain ⟨hd, hr⟩ := h2 hc
    exact extract_fixpoint_rd _ c hc h1 hd hr (noDate_extract_rd s c hc)
      (extract_rd_strip s c hc)

/-- C8 witness: the spec's own Redump example satisfies the amended
hypotheses, and double application agrees with single application there. -/
theorem c8_idempotent_amended_witness :
    (freshStripL (extract_system_name
        "Sony - PlayStation (2025-10-23 18-11-28) - Datfile (77)" "redump").data =
      (extract_system_name
        "Sony - PlayStation (2025-10-23 18-11-28) - Datfile (77)" "redump").data) ∧
    (("redump" : String) ≠ "no-intro" →
      datfileSubL (extract_system_name
          "Sony - PlayStation (2025-10-23 18-11-28) - Datfile (77)" "redump").data =
        (extract_system_name
          "Sony - PlayStation (2025-10-23 18-11-28) - Datfile (77)" "redump").data ∧
      retoolCutL (extract_system_name
          "Sony - PlayStation (2025-10-23 18-11-28) - Datfile (77)" "redump").data =
        (extract_system_name
          "Sony - PlayStation (2025-10-23 18-11-28) - Datfile (77)" "redump").data) ∧
    extract_system_name (extract_system_name
        "Sony - PlayStation (2025-10-23 18-11-28) - Datfile (77)" "redump") "redump" =
      extract_system_name "Sony - PlayStation (2025-10-23 18-11-28) - Datfile (77)" "redump" :=
  ⟨by decide, by decide,
   c8_idempotent_amended "Sony - PlayStation (2025-10-23 18-11-28) - Datfile (77)" "redump"
     (by decide) (by decide)⟩

/-! ## Helper lemmas: metadata bookkeeping and canonical states -/

theorem lookupMeta_mem : ∀ {md : List (String × MetaEntry)} {k : String} {e : MetaEntry},
    lookupMeta md k = some e → (k, e) ∈ md := by
  intro md
  induction md with
  | nil => intro k e h; cases h
  | cons kv rest ih =>
    intro k e h
    obtain ⟨k', v'⟩ := kv
    unfold lookupMeta at h
    by_cases hk : k' = k
    · rw [if_pos hk] at h
      injection h with h'
      subst hk
      rw [h']
      exact List.mem_cons_self _ _
    · rw [if_neg hk] at h
      exact List.mem_cons.mpr (Or.inr (ih h))

theorem setMeta_keys_mem : ∀ {md : List (String × MetaEntry)} {k : String} {v : MetaEntry}
    {a : String}, a ∈ (setMeta md k v).map Prod.fst → a ∈ md.map Prod.fst ∨ a = k := by
  intro md
  induction md with
  | nil =>
    intro k v a h
    simp [setMeta] at h
    right
    exact h
  | cons kv rest ih =>
    intro k v a h
    obtain ⟨k', v'⟩ := kv
    simp only [setMeta] at h
    by_cases hk : k' = k
    · rw [if_pos hk] at h
      simp only [List.map_cons, List.mem_cons] at h ⊢
      rcases h with h | h
      · right; exact h
      · left; right; exact h
    · rw [if_neg hk] at h
      simp only [List.map_cons, List.mem_cons] at h ⊢
      rcases h with h | h
      · left; left; exact h
      · rcases ih h with h1 | h1
        · left; right; exact h1
        · right; exact h1

theorem setMeta_keys_nodup : ∀ {md : List (String × MetaEntry)} (k : String) (v : MetaEntry),
    (md.map Prod.fst).Nodup → ((setMeta md k v).map Prod.fst).Nodup := by
  intro md
  induction md with
  | nil => intro k v _; simp [setMeta]
  | cons kv rest ih =>
    intro k v h
    obtain ⟨k', v'⟩ := kv
    rw [List.map_cons, List.nodup_cons] at h
    simp only [setMeta]
    by_cases hk : k' = k
    · rw [if_pos hk]
      rw [List.map_cons, List.nodup_cons]
      exact ⟨by rw [← hk]; exact h.1, h.2⟩
    · rw [if_neg hk]
      rw [List.map_cons, List.nodup_cons]
      refine ⟨?_, ih k v h.2⟩
      intro hmem
      rcases setMeta_keys_mem hmem with h1 | h1
      · exact h.1 h1
      · exact hk h1

theorem eraseMeta_keys_nodup {md : List (String × MetaEntry)} {k : String}
    (h : (md.map Prod.fst).Nodup) : ((eraseMeta md k).map Prod.fst).Nodup :=
  List.Nodup.sublist ((List.filter_sublist md).map Prod.fst) h

theorem foldl_preserve {α β : Type} {P : β → Prop} (step : β → α → β)
    (hstep : ∀ b a, P b → P (step b a)) :
    ∀ (l : List α) (b : β), P b → P (l.foldl step b) := by
  intro l
  induction l with
  | nil => intro b h; exact h
  | cons a as ih =>
    intro b h
    exact ih (step b a) (hstep b a h)

theorem cleanupStep_keys_nodup (f : String) (md : List (String × MetaEntry))
    (h : (md.map Prod.fst).Nodup) :
    ((match cleanupGroup f with
      | some system_name =>
        match lookupMeta md system_name with
        | some e => if e.output_path = f then eraseMeta md system_name else md
        | none => md
      | none => md).map Prod.fst).Nodup := by
  cases hg : cleanupGroup f with
  | none => simp only [hg]; exact h
  | some s =>
    simp only [hg]
    cases hl : lookupMeta md s with
    | none => simp only [hl]; exact h
    | some e =>
      simp only [hl]
      split_ifs with he
      · exact eraseMeta_keys_nodup h
      · exact h

theorem computePreserve_mem_aux (st : DirState) (collection : String) :
    ∀ (inputs : List String) (acc : List String) (nm : String),
      nm ∈ inputs.foldl
        (fun acc inp =>
          match check_if_already_processed st inp collection with
          | some nm => if acc.contains nm then acc else acc ++ [nm]
          | none => acc) acc →
      nm ∈ acc ∨ ∃ inp ∈ inputs, check_if_already_processed st inp collection = some nm := by
  intro inputs
  induction inputs with
  | nil => intro acc nm h; exact Or.inl h
  | cons i rest ih =>
    intro acc nm h
    rw [List.foldl_cons] at h
    rcases ih _ nm h with h1 | ⟨inp, hinp, hchk⟩
    · cases hchk : check_if_already_processed st i collection with
      | none =>
        simp only [hchk] at h1
        exact Or.inl h1
      | some nm' =>
        simp only [hchk] at h1
        by_cases hcont : acc.contains nm' = true
        · rw [if_pos hcont] at h1
          exact Or.inl h1
        · rw [if_neg hcont] at h1
          rcases List.mem_append.mp h1 with h2 | h2
          · exact Or.inl h2
          · right
            refine ⟨i, List.mem_cons_self _ _, ?_⟩
            rw [hchk]
            rw [List.mem_singleton] at h2
            rw [h2]
    · exact Or.inr ⟨inp, List.mem_cons.mpr (Or.inr hinp), hchk⟩

theorem computePreserve_mem {st : DirState} {inputs : List String} {collection nm : String}
    (h : nm ∈ computePreserve st inputs collection) :
    ∃ inp ∈ inputs, check_if_already_processed st inp collection = some nm := by
  rcases computePreserve_mem_aux st collection inputs [] nm h with h1 | h1
  · cases h1
  · exact h1

theorem check_some_output {st : DirState} {inp coll nm : String}
    (h : check_if_already_processed st inp coll = some nm) :
    ∃ e, lookupMeta st.metadata (extract_system_name (stemName inp) coll) = some e ∧
      nm = e.output_path := by
  simp only [check_if_already_processed] at h
  cases hl : lookupMeta st.metadata (extract_system_name (stemName inp) coll) with
  | none =>
    simp only [hl] at h
    exact Option.noConfusion h
  | some e =>
    simp only [hl] at h
    refine ⟨e, rfl, ?_⟩
    by_cases hf : e.output_path ∈ st.files
    · rw [if_pos hf] at h
      cases hs : storedName e with
      | none =>
        simp only [hs] at h
        exact Option.noConfusion h
      | some n =>
        simp only [hs] at h
        by_cases hcond : n ≠ "" ∧ inp = n
        · rw [if_pos hcond] at h
          injection h with h'
          exact h'.symm
        · rw [if_neg hcond] at h
          cases h
    · rw [if_neg hf] at h
      cases h

theorem foldl_pick_mem : ∀ (xs : List (String × Nat)) (b : String × Nat),
    xs.foldl (fun best y => if best.2 < y.2 then y else best) b ∈ b :: xs := by
  intro xs
  induction xs with
  | nil => intro b; simp
  | cons y ys ih =>
    intro b
    rw [List.foldl_cons]
    by_cases hb : b.2 < y.2
    · rw [if_pos hb]
      rcases List.mem_cons.mp (ih y) with h | h
      · rw [h]
        exact List.mem_cons.mpr (Or.inr (List.mem_cons_self _ _))
      · exact List.mem_cons.mpr (Or.inr (List.mem_cons.mpr (Or.inr h)))
    · rw [if_neg hb]
      rcases List.mem_cons.mp (ih b) with h | h
      · rw [h]
        exact List.mem_cons_self _ _
      · exact List.mem_cons.mpr (Or.inr (List.mem_cons.mpr (Or.inr h)))

theorem maxByMtime_mem {l : List (String × Nat)} {x : String × Nat}
    (h : maxByMtime l = some x) : x ∈ l := by
  cases l with
  | nil => cases h
  | cons a as =>
    unfold maxByMtime at h
    injection h with h'
    rw [← h']
    exact foldl_pick_mem as a

theorem isDat_pathSuffix {n : String} (h : isDatName n = true) : pathSuffix n = ".dat" := by
  unfold isDatName at h
  rw [Bool.and_eq_true] at h
  obtain ⟨h1, h2⟩ := h
  rw [decide_eq_true_eq] at h1
  have hdatlen : (".dat".data).length = 4 := rfl
  have hlen4 : 4 ≤ n.data.length := by
    by_contra hlt
    push_neg at hlt
    have h0 : n.data.length - 4 = 0 := by omega
    rw [h0, List.drop_zero] at h1
    have hlen := congrArg List.length h1
    rw [hdatlen] at hlen
    omega
  have hx : n.data = n.data.take (n.data.length - 4) ++ ".dat".data := by
    conv_lhs => rw [← List.take_append_drop (n.data.length - 4) n.data]
    rw [h1]
  have hxne : n.data.take (n.data.length - 4) ≠ [] := by
    intro h0
    rw [h0, List.nil_append] at hx
    rw [hx] at h2
    exact absurd h2 (by decide)
  have hlen5 : 5 ≤ n.data.length := by
    rcases Nat.lt_or_ge n.data.length 5 with h5 | h5
    · have h0 : n.data.length - 4 = 0 := by omega
      rw [h0, List.take_zero] at hxne
      exact absurd rfl hxne
    · exact h5
  have hrev : n.data.reverse =
      't' :: 'a' :: 'd' :: '.' :: (n.data.take (n.data.length - 4)).reverse := by
    conv_lhs => rw [hx]
    rw [List.reverse_append]
    rfl
  have hfind : findSubL ['.'] n.data.reverse = some 3 := by
    rw [hrev]
    rfl
  have hldi : lastDotIdx n.data = some (n.data.length - 1 - 3) := by
    unfold lastDotIdx
    rw [hfind]
  have hdrop : pathSuffixL n.data = n.data.drop (n.data.length - 4) := by
    unfold pathSuffixL
    simp only [hldi]
    rw [if_pos ⟨by omega, by omega⟩]
    first
    | rfl
    | (congr 1; omega)
  unfold pathSuffix
  rw [hdrop, h1]

theorem run_retool_state_noscript (st : DirState) (rc : Int) (pd pr : List (String × Nat))
    (sout serr inp coll cfg : String) :
    (run_retool st ⟨false, rc, pd, pr, sout, serr⟩ inp coll cfg).state = st := rfl

theorem nodup_all_eq_length_le_one {α : Type} : ∀ {l : List α}, l.Nodup →
    (∀ a ∈ l, ∀ b ∈ l, a = b) → l.length ≤ 1 := by
  intro l hnd hall
  match l with
  | [] => simp
  | [a] => simp
  | a :: b :: rest =>
    exfalso
    rw [List.nodup_cons] at hnd
    have hab := hall a (List.mem_cons_self _ _) b
      (List.mem_cons.mpr (Or.inr (List.mem_cons_self _ _)))
    exact hnd.1 (by rw [hab]; exact List.mem_cons_self _ _)

theorem writeOutputState_canon {coll cfg : String} {st : DirState} {sys nm inp : String}
    (hc : FilesCanon coll cfg st) (hWF : sysWF coll cfg sys)
    (hnm : nm = outputName sys cfg) :
    FilesCanon coll cfg (writeOutputState st sys nm inp) := by
  obtain ⟨hnd, hcanon, hkeys⟩ := hc
  refine ⟨?_, ?_, ?_⟩
  · simp only [writeOutputState]
    rw [List.nodup_cons]
    constructor
    · intro hmem
      have h2 := (List.mem_filter.mp hmem).2
      simp at h2
    · exact hnd.filter _
  · intro f hf hdat
    simp only [writeOutputState] at hf
    rcases List.mem_cons.mp hf with h | h
    · exact ⟨sys, hWF, h.trans hnm⟩
    · exact hcanon f (List.mem_filter.mp h).1 hdat
  · simp only [writeOutputState]
    exact setMeta_keys_nodup sys _ hkeys

theorem processOneDat_canon {coll cfg : String} {st : DirState} {inp : String}
    {inv : RetoolInvocation}
    (hc : FilesCanon coll cfg st)
    (hWF : sysWF coll cfg (extract_system_name (stemName inp) coll))
    (hdats : ∀ d ∈ inv.producedDats, isDatName d.1 = true) :
    FilesCanon coll cfg (processOneDat st inp coll cfg inv).state := by
  cases hk : check_if_already_processed st inp coll with
  | some nm =>
    rw [processOneDat_skip_spec st inp coll cfg inv nm hk]
    exact hc
  | none =>
    rw [processOneDat_state_run st inp coll cfg inv hk]
    obtain ⟨se, rc, pd, pr, so, sr⟩ := inv
    cases se with
    | false =>
      rw [run_retool_state_noscript]
      exact hc
    | true =>
      rw [run_retool_state_spec]
      cases hm : maxByMtime pd with
      | none => exact hc
      | some temp =>
        simp only [hm]
        have htemp : isDatName temp.1 = true := hdats temp (maxByMtime_mem hm)
        have hsf : pathSuffix temp.1 = ".dat" := isDat_pathSuffix htemp
        have hnm : (if cfg ≠ "" then
              extract_system_name (stemName inp) coll ++ " (Fresh1G1R - " ++ cfg ++ ")" ++
                pathSuffix temp.1
            else extract_system_name (stemName inp) coll ++ pathSuffix temp.1) =
            outputName (extract_system_name (stemName inp) coll) cfg := by
          rw [hsf]
          unfold outputName
          split_ifs <;> rfl
        rw [hnm]
        exact writeOutputState_canon ⟨hc.1, hc.2.1, hc.2.2⟩ hWF rfl

theorem cleanup_canon {coll cfg : String} {st : DirState} {inputs : List String}
    (hnd : st.files.Nodup) (hkeys : (st.metadata.map Prod.fst).Nodup)
    (hent : ∀ kv ∈ st.metadata,
      kv.2.output_path = outputName kv.1 cfg ∧ sysWF coll cfg kv.1) :
    FilesCanon coll cfg (cleanup_previous_dats st (computePreserve st inputs coll)) := by
  refine ⟨?_, ?_, ?_⟩
  · exact hnd.filter _
  · intro f hf hdat
    simp only [cleanup_previous_dats] at hf
    have hmemf := List.mem_filter.mp hf
    have h2 := hmemf.2
    simp only [hdat, Bool.true_and, Bool.not_not] at h2
    have hmem : f ∈ computePreserve st inputs coll := by simpa using h2
    obtain ⟨inp, _, hchk⟩ := computePreserve_mem hmem
    obtain ⟨e, hle, hout⟩ := check_some_output hchk
    have hkv := lookupMeta_mem hle
    obtain ⟨hop, hwf⟩ := hent _ hkv
    exact ⟨extract_system_name (stemName inp) coll, hwf, by rw [hout, hop]⟩
  · simp only [cleanup_previous_dats]
    exact foldl_preserve _ (fun md f hmd => cleanupStep_keys_nodup f md hmd) _ _ hkeys

theorem canon_inv {coll cfg : String} {st : DirState} (hc : FilesCanon coll cfg st)
    (sys : String) :
    (datFilesFor st coll sys).length ≤ 1 ∧ (metaEntriesFor st sys).length ≤ 1 := by
  obtain ⟨hnd, hcanon, hkeys⟩ := hc
  constructor
  · apply nodup_all_eq_length_le_one (hnd.filter _)
    intro a ha b hb
    have hma := List.mem_filter.mp ha
    have hmb := List.mem_filter.mp hb
    have hpa := hma.2
    have hpb := hmb.2
    rw [Bool.and_eq_true, decide_eq_true_eq] at hpa hpb
    obtain ⟨sa, hwa, hea⟩ := hcanon a hma.1 hpa.1
    obtain ⟨sb, hwb, heb⟩ := hcanon b hmb.1 hpb.1
    have hsa : sa = sys := by
      have h3 := hpa.2
      rw [hea] at h3
      rw [← h3]
      exact hwa.symm
    have hsb : sb = sys := by
      have h3 := hpb.2
      rw [heb] at h3
      rw [← h3]
      exact hwb.symm
    rw [hea, heb, hsa, hsb]
  · have hsub : ((metaEntriesFor st sys).map Prod.fst).Nodup :=
      List.Nodup.sublist (List.Sublist.map Prod.fst (List.filter_sublist st.metadata)) hkeys
    have hall : ∀ x ∈ (metaEntriesFor st sys).map Prod.fst,
        ∀ y ∈ (metaEntriesFor st sys).map Prod.fst, x = y := by
      intro x hx y hy
      obtain ⟨kv1, hkv1, hfst1⟩ := List.mem_map.mp hx
      obtain ⟨kv2, hkv2, hfst2⟩ := List.mem_map.mp hy
      have e1 : kv1.1 = sys := by
        have h3 := (List.mem_filter.mp hkv1).2
        simpa using h3
      have e2 : kv2.1 = sys := by
        have h3 := (List.mem_filter.mp hkv2).2
        simpa using h3
      rw [← hfst1, ← hfst2, e1, e2]
    have hle := nodup_all_eq_length_le_one hsub hall
    rw [List.length_map] at hle
    exact hle

theorem passStatesGo_canon {coll cfg : String} {invFor : String → RetoolInvocation} :
    ∀ (inputs : List String) (st1 : DirState),
      FilesCanon coll cfg st1 →
      (∀ inp ∈ inputs, sysWF coll cfg (extract_system_name (stemName inp) coll)) →
      (∀ inp ∈ inputs, ∀ d ∈ (invFor inp).producedDats, isDatName d.1 = true) →
      ∀ st' ∈ passStatesGo coll cfg invFor st1 inputs, FilesCanon coll cfg st' := by
  intro inputs
  induction inputs with
  | nil =>
    intro st1 _ _ _ st' h
    simp [passStatesGo] at h
  | cons f rest ih =>
    intro st1 hc hWF hdats st' hmem
    simp only [passStatesGo] at hmem
    have hc' : FilesCanon coll cfg (processOneDat st1 f coll cfg (invFor f)).state :=
      processOneDat_canon hc (hWF f (List.mem_cons_self _ _))
        (hdats f (List.mem_cons_self _ _))
    rcases List.mem_cons.mp hmem with h | h
    · rw [h]
      exact hc'
    · exact ih _ hc' (fun i hi => hWF i (List.mem_cons.mpr (Or.inr hi)))
        (fun i hi => hdats i (List.mem_cons.mpr (Or.inr hi))) st' h

/-! ## C3 -/

/-- C3 (counterexample): the per-(configuration, collection, system)
uniqueness of retained `.dat` files is not preserved.  Starting from a
directory holding one output recorded in the metadata under an older
configuration tag (`Old`), a pass with configuration tag `New` over two
dated inputs of the same system first preserves and skips via the old
entry, then reprocesses the newer input — leaving two `.dat` files whose
normalized system name is `Sony` (the state sequence of the pass carries
1, 1, then 2 such files). -/
theorem c3_invariant_counterexample :
    (processPassStates c3InitState c3Inputs "no-intro" "New" c3Inv).map
        (fun st => (datFilesFor st "no-intro" "Sony").length) = [1, 1, 2] := by
  decide

/-- C3 (amended): the invariant holds for every state of a pass — at most
one metadata entry and at most one retained `.dat` file per system name —
provided the starting directory listing has no duplicate names, the
metadata keys are unique, every metadata entry records the canonical output
name of its key under the pass's configuration tag (and that key
round-trips through the canonical naming), every input's normalized system
name round-trips likewise, and the tool's produced files are `*.dat` glob
results. -/
theorem c3_invariant_amended (st : DirState) (inputs : List String)
    (collection config_name : String) (invFor : String → RetoolInvocation)
    (h1 : st.files.Nodup)
    (h2 : (st.metadata.map Prod.fst).Nodup)
    (h3 : ∀ kv ∈ st.metadata, kv.2.output_path = outputName kv.1 config_name ∧
      sysWF collection config_name kv.1)
    (h4 : ∀ inp ∈ inputs,
      sysWF collection config_name (extract_system_name (stemName inp) collection))
    (h5 : ∀ inp ∈ inputs, ∀ d ∈ (invFor inp).producedDats, isDatName d.1 = true) :
    ∀ st' ∈ processPassStates st inputs collection config_name invFor, ∀ sys,
      (datFilesFor st' collection sys).length ≤ 1 ∧
      (metaEntriesFor st' sys).length ≤ 1 := by
  intro st' hmem sys
  have hc1 : FilesCanon collection config_name
      (cleanup_previous_dats st (computePreserve st inputs collection)) :=
    cleanup_canon h1 h2 h3
  simp only [processPassStates] at hmem
  rcases List.mem_cons.mp hmem with h | h
  · rw [h]
    exact canon_inv hc1 sys
  · exact canon_inv (passStatesGo_canon inputs _ hc1 h4 h5 st' h) sys

/-- C3 witness: an empty directory, one well-formed input, and a tool that
produces one `.dat`; after the pass the `Sony` triple holds one file and
one metadata entry. -/
theorem c3_invariant_amended_witness :
    ((⟨[], []⟩ : DirState).files.Nodup) ∧
    (((⟨[], []⟩ : DirState).metadata.map Prod.fst).Nodup) ∧
    (∀ kv ∈ (⟨[], []⟩ : DirState).metadata,
      kv.2.output_path = outputName kv.1 "A" ∧ sysWF "no-intro" "A" kv.1) ∧
    (∀ inp ∈ ["Sony (20250101-000000).dat"],
      sysWF "no-intro" "A" (extract_system_name (stemName inp) "no-intro")) ∧
    (∀ inp ∈ ["Sony (20250101-000000).dat"], ∀ d ∈ (c3Inv inp).producedDats,
      isDatName d.1 = true) ∧
    ((datFilesFor
        ⟨["Sony (Fresh1G1R - A).dat"],
         [("Sony", ⟨some "Sony (20250101-000000).dat", none, "Sony (Fresh1G1R - A).dat"⟩)]⟩
        "no-intro" "Sony").length ≤ 1 ∧
      (metaEntriesFor
        ⟨["Sony (Fresh1G1R - A).dat"],
         [("Sony", ⟨some "Sony (20250101-000000).dat", none, "Sony (Fresh1G1R - A).dat"⟩)]⟩
        "Sony").length ≤ 1) :=
  ⟨by decide, by decide, by decide, by decide, by decide,
   c3_invariant_amended ⟨[], []⟩ ["Sony (20250101-000000).dat"] "no-intro" "A" c3Inv
     (by decide) (by decide) (by decide) (by decide) (by decide)
     ⟨["Sony (Fresh1G1R - A).dat"],
      [("Sony", ⟨some "Sony (20250101-000000).dat", none, "Sony (Fresh1G1R - A).dat"⟩)]⟩
     (by decide) "Sony"⟩
